import Mathlib

/-!
Verification development for the Indonesian bank-statement parsing engine
(`pdfparser`).  The relevant routines of `src/pdfparser/utils.py` and
`src/pdfparser/pdfoxide_parser.py` are shallowly embedded over `List Char`.

Modelling conventions:
* Python strings are `String` / `List Char`; only ASCII text is considered
  (Python's `str.strip`, `str.lower`, `str.isdigit` and the regex classes
  `\s`, `\d`, `[a-zA-Z]` coincide with their ASCII restrictions on all
  inputs of interest).
* Python machine floats are modelled as exact rationals; `float(...)`
  parsing of finite decimal literals is modelled exactly, while the
  non-finite literals (`inf`/`nan`) and binary rounding are outside the
  model and are excluded explicitly where they would matter.
* The handful of regular expressions used by the engine are hand-compiled
  into deterministic matchers with explicit backtracking exactly where the
  pattern requires it (greedy quantifiers are enumerated longest-first,
  lazy ones shortest-first, alternation left-first), matching Python `re`
  leftmost-match semantics; `re.sub` is a left-to-right scan that resumes
  after each match.
-/

namespace PdfParser

/-- ASCII whitespace: the restriction of Python's `str.strip`/regex `\s`. -/
def isWsC (c : Char) : Bool :=
  c = ' ' || c = '\t' || c = '\n' || c = '\r' || c = '\x0b' || c = '\x0c'

/-- regex `\d` (ASCII range `0`-`9`, as `Char.isDigit`). -/
def isDigitC (c : Char) : Bool := '0' ≤ c && c ≤ '9'

/-- character class `[\d,]`. -/
def isDC (c : Char) : Bool := isDigitC c || c = ','

/-- character class `[\d,.]` (also `[\d\.,]`). -/
def isNumTok (c : Char) : Bool := isDigitC c || c = ',' || c = '.'

/-- regex `[a-zA-Z]` (as `Char.isAlpha`). -/
def isAlphaC (c : Char) : Bool := ('a' ≤ c && c ≤ 'z') || ('A' ≤ c && c ≤ 'Z')

/-- Python `str.lower` on ASCII (as `Char.toLower`). -/
def toLowerC (c : Char) : Char :=
  if 'A' ≤ c && c ≤ 'Z' then Char.ofNat (c.toNat + 32) else c

/-- Python `str.strip()` (ASCII whitespace). -/
def pyStrip (l : List Char) : List Char :=
  ((l.dropWhile isWsC).reverse.dropWhile isWsC).reverse

/-- Python `text.split('\n')`. -/
def splitNL : List Char → List (List Char)
  | [] => [[]]
  | '\n' :: rest => [] :: splitNL rest
  | c :: rest =>
    match splitNL rest with
    | [] => [[c]]
    | l :: ls => (c :: l) :: ls

/-- Python `' '.join(...)` on char lists. -/
def joinSpace : List (List Char) → List Char
  | [] => []
  | [x] => x
  | x :: xs => x ++ ' ' :: joinSpace xs

def pyStr (l : List Char) : String := String.mk l

/-!  ### Anchored patterns of `extract_transactions`

`TRANSACTION_DATE_PATTERN = ^\d{2}/\d{2}/\d{2}\s+\d{2}:\d{2}:\d{2}` used via
`re.match` (anchored prefix match); all quantifier boundaries here are
between disjoint character classes, so greedy matching is deterministic. -/
def txnDateMatch (s : List Char) : Bool :=
  match s with
  | a :: b :: '/' :: c :: d :: '/' :: e :: f :: rest =>
    isDigitC a && isDigitC b && isDigitC c && isDigitC d && isDigitC e && isDigitC f &&
    (let ws := rest.takeWhile isWsC
     decide (ws ≠ []) &&
     match rest.dropWhile isWsC with
     | g :: h :: ':' :: i :: j :: ':' :: k :: l :: _ =>
       isDigitC g && isDigitC h && isDigitC i && isDigitC j && isDigitC k && isDigitC l
     | _ => false)
  | _ => false

/-- `^(\d{2}/\d{2}/\d{2})` via `re.match`. -/
def dateOnlyMatch (s : List Char) : Bool :=
  match s with
  | a :: b :: '/' :: c :: d :: '/' :: e :: f :: _ =>
    isDigitC a && isDigitC b && isDigitC c && isDigitC d && isDigitC e && isDigitC f
  | _ => false

/-- `_NUMERIC_LINE_PATTERN = ^[\d,.]+\s*$` via `re.match`.  Python's `$`
matches at the end of the string or just before a terminal newline; both
cases are subsumed by "everything after the numeric run is whitespace". -/
def numericLineMatch (s : List Char) : Bool :=
  decide (s.takeWhile isNumTok ≠ []) && (s.dropWhile isNumTok).all isWsC

/-- `_NUMERIC_ONLY_PATTERN = ^[\d,.]*$` via `re.match`. -/
def numericOnlyMatch (s : List Char) : Bool :=
  let rest := s.dropWhile isNumTok
  rest = [] || rest = ['\n']

/-- `_AMOUNT_PATTERN = ^[\d,]+\.\d{2}$` via `re.match`. -/
def amountMatch (s : List Char) : Bool :=
  decide (s.takeWhile isDC ≠ []) &&
  match s.dropWhile isDC with
  | '.' :: a :: b :: rest =>
    isDigitC a && isDigitC b && (rest = [] || rest = ['\n'])
  | _ => false

/-- `_USER_ID_PATTERN = ^\d{6,8}$` via `re.match`. -/
def userIdMatch (s : List Char) : Bool :=
  let run := s.takeWhile isDigitC
  let rest := s.dropWhile isDigitC
  decide (6 ≤ run.length) && decide (run.length ≤ 8) && (rest = [] || rest = ['\n'])

/-! ### `extract_transactions` (utils.py lines 230-353)

A transaction record is a Python dict built literally with six keys; it is
modelled as an association list in construction order. -/

abbrev Txn := List (String × String)

def mkTxn (date description user debit credit balance : List Char) : Txn :=
  [("date", pyStr date), ("description", pyStr description), ("user", pyStr user),
   ("debit", pyStr debit), ("credit", pyStr credit), ("balance", pyStr balance)]

/-- The description-collecting inner `while` loop: advance while the current
line is neither a new date anchor nor a numeric line, accumulating non-empty
stripped lines.  `fuel` bounds the loop; the index advances every step, so
any `fuel ≥ lines.length - i` computes the exact loop result. -/
def collectDesc (lines : List (List Char)) : Nat → Nat → Nat × List (List Char)
  | 0, i => (i, [])
  | fuel + 1, i =>
    if i < lines.length then
      let nl := pyStrip (lines.getD i [])
      if txnDateMatch nl then (i, [])
      else if numericLineMatch nl then (i, [])
      else
        let r := collectDesc lines fuel (i + 1)
        (r.1, if nl ≠ [] then nl :: r.2 else r.2)
    else (i, [])

/-- `while i < len(lines) and not lines[i].strip(): i += 1`. -/
def skipBlank (lines : List (List Char)) : Nat → Nat → Nat
  | 0, i => i
  | fuel + 1, i =>
    if i < lines.length then
      if pyStrip (lines.getD i []) = [] then skipBlank lines fuel (i + 1) else i
    else i

/-- `lines[i].strip() if i < len(lines) else ''`. -/
def readAt (lines : List (List Char)) (i : Nat) : List Char :=
  if i < lines.length then pyStrip (lines.getD i []) else []

/-- The outer `while` loop of `extract_transactions`, instrumented with the
index `i` at which each record's date anchor was found (the loop variable at
the moment the record is built).  Every recursive call strictly increases
`i`, so starting fuel `lines.length + 1` computes the exact loop result
(when fuel would run out, `i` already exceeds `lines.length`). -/
def extractTxAux (lines : List (List Char)) : Nat → Nat → List (Nat × Txn)
  | 0, _ => []
  | fuel + 1, i =>
    if i < lines.length then
      let line := pyStrip (lines.getD i [])
      if line = [] then extractTxAux lines fuel (i + 1)
      else if txnDateMatch line then
        if dateOnlyMatch line then
          let date := line
          let dj := collectDesc lines lines.length (i + 1)
          let description := joinSpace dj.2
          let j2 := skipBlank lines lines.length dj.1
          if lines.length ≤ j2 then []
          else
            let nf := pyStrip (lines.getD j2 [])
            if userIdMatch nf then
              let p1 := skipBlank lines lines.length (j2 + 1)
              let debit := readAt lines p1
              let p2 := skipBlank lines lines.length (p1 + 1)
              let credit := readAt lines p2
              let p3 := skipBlank lines lines.length (p2 + 1)
              let balance := readAt lines p3
              (i, mkTxn date description nf debit credit balance) :: extractTxAux lines fuel p3
            else if amountMatch nf then
              let p1 := skipBlank lines lines.length (j2 + 1)
              let credit := readAt lines p1
              let p2 := skipBlank lines lines.length (p1 + 1)
              let balance := readAt lines p2
              (i, mkTxn date description [] nf credit balance) :: extractTxAux lines fuel p2
            else
              (i, mkTxn date description nf [] [] []) :: extractTxAux lines fuel j2
        else extractTxAux lines fuel (i + 1)
      else extractTxAux lines fuel (i + 1)
    else []

def extractTxPairs (text : String) : List (Nat × Txn) :=
  let lines := splitNL text.data
  extractTxAux lines (lines.length + 1) 0

/-- `extract_transactions` (utils.py): the records, in emission order. -/
def extract_transactions (text : String) : List Txn :=
  (extractTxPairs text).map Prod.snd

/-! ### Exact decimal numbers

Every numeric value this engine manipulates is an exact decimal, so Python
floats are modelled by the exact-decimal type `Dec` (value `num / 10^exp`,
kept canonical by stripping factors of ten).  On such values Python's
binary floats represent, the float comparisons and the 2-decimal
formatting used below agree with CPython; double rounding of values that
are not exactly representable is outside this model. -/

structure Dec where
  num : Int
  exp : Nat
deriving DecidableEq, Repr

def Dec.normAux : Nat → Int → Dec
  | 0, n => ⟨n, 0⟩
  | e + 1, n => if n % 10 = 0 then Dec.normAux e (n / 10) else ⟨n, e + 1⟩

/-- Canonicalize: strip common factors of ten. -/
def Dec.norm (a : Dec) : Dec := Dec.normAux a.exp a.num

def Dec.add (a b : Dec) : Dec :=
  Dec.norm ⟨a.num * 10 ^ b.exp + b.num * 10 ^ a.exp, a.exp + b.exp⟩

def Dec.sub (a b : Dec) : Dec :=
  Dec.norm ⟨a.num * 10 ^ b.exp - b.num * 10 ^ a.exp, a.exp + b.exp⟩

def Dec.neg (a : Dec) : Dec := ⟨-a.num, a.exp⟩

/-- Python `abs`. -/
def Dec.absD (a : Dec) : Dec := if a.num < 0 then ⟨-a.num, a.exp⟩ else a

/-- `a * 10^z` (the only multiplication the engine needs). -/
def Dec.mulPow10 (a : Dec) : Int → Dec
  | .ofNat k => Dec.norm ⟨a.num * 10 ^ k, a.exp⟩
  | .negSucc k => Dec.norm ⟨a.num, a.exp + (k + 1)⟩

instance : LE Dec := ⟨fun a b => a.num * 10 ^ b.exp ≤ b.num * 10 ^ a.exp⟩

instance : LT Dec := ⟨fun a b => a.num * 10 ^ b.exp < b.num * 10 ^ a.exp⟩

instance (a b : Dec) : Decidable (a ≤ b) :=
  inferInstanceAs (Decidable (a.num * 10 ^ b.exp ≤ b.num * 10 ^ a.exp))

instance (a b : Dec) : Decidable (a < b) :=
  inferInstanceAs (Decidable (a.num * 10 ^ b.exp < b.num * 10 ^ a.exp))

instance : OfNat Dec n := ⟨⟨n, 0⟩⟩

instance : OfScientific Dec :=
  ⟨fun m b e => if b then Dec.norm ⟨m, e⟩ else ⟨(m : Int) * 10 ^ e, 0⟩⟩

def Dec.floorD (a : Dec) : Int := a.num.fdiv (10 ^ a.exp)

/-! ### Python `float()` on cleaned tokens

Finite decimal literals (`[sign] digits [. digits] [e/E [sign] digits]`,
with PEP 515 underscores between digits) are parsed exactly.  The literals
`inf`/`infinity`/`nan`, which Python accepts as non-finite floats, are
outside the exact-decimal model and are tracked by `isSpecialFloatLit` so
that theorems about parse *failures* exclude them. -/

def digitsVal (ds : List Char) : Nat :=
  ds.foldl (fun n c => n * 10 + (c.toNat - '0'.toNat)) 0

/-- One digit run with PEP 515 underscores: `digit (('_')? digit)*`;
an underscore not followed by a digit is left unconsumed. -/
def parseUDigitsAux (acc : List Char) : List Char → List Char × List Char
  | c :: cs =>
    if isDigitC c then parseUDigitsAux (acc ++ [c]) cs
    else if c = '_' then
      match cs with
      | d :: ds => if isDigitC d then parseUDigitsAux (acc ++ [d]) ds else (acc, c :: cs)
      | [] => (acc, [c])
    else (acc, c :: cs)
  | [] => (acc, [])

def parseUDigits (s : List Char) : Option (List Char × List Char) :=
  match s with
  | c :: cs => if isDigitC c then some (parseUDigitsAux [c] cs) else none
  | [] => none

/-- Optional exponent part, then end of string. -/
def parseExpPart (mant : Dec) (s : List Char) : Option Dec :=
  match s with
  | [] => some mant
  | e :: rest =>
    if e = 'e' || e = 'E' then
      let signed : Int × List Char :=
        match rest with
        | '+' :: r => (1, r)
        | '-' :: r => (-1, r)
        | r => (1, r)
      match parseUDigits signed.2 with
      | some (ds, rest3) =>
        if rest3 = [] then some (mant.mulPow10 (signed.1 * (digitsVal ds : Int))) else none
      | none => none
    else none

def fracVal (fs : List Char) : Dec :=
  Dec.norm ⟨digitsVal fs, fs.length⟩

def intVal (ds : List Char) : Dec := ⟨digitsVal ds, 0⟩

def pyFloatBody (s : List Char) : Option Dec :=
  match s with
  | '.' :: rest =>
    match parseUDigits rest with
    | some (fs, rest2) => parseExpPart (fracVal fs) rest2
    | none => none
  | _ =>
    match parseUDigits s with
    | some (is, rest1) =>
      match rest1 with
      | '.' :: rest2 =>
        match parseUDigits rest2 with
        | some (fs, rest3) => parseExpPart ((intVal is).add (fracVal fs)) rest3
        | none => parseExpPart (intVal is) rest2
      | _ => parseExpPart (intVal is) rest1
    | none => none

/-- `float(s)` for finite literals: leading/trailing whitespace stripped,
optional sign, then the decimal body consuming the whole string. -/
def pyFloatParse (s0 : List Char) : Option Dec :=
  match pyStrip s0 with
  | '+' :: r => pyFloatBody r
  | '-' :: r => (pyFloatBody r).map Dec.neg
  | r => pyFloatBody r

/-- `inf`, `infinity`, `nan` (case-insensitive, optional sign): accepted by
Python `float()` but non-finite, hence outside the exact-rational model. -/
def isSpecialFloatLit (s0 : List Char) : Bool :=
  let s := (pyStrip s0).map toLowerC
  let body : List Char :=
    match s with
    | '+' :: r => r
    | '-' :: r => r
    | r => r
  body = "inf".data || body = "infinity".data || body = "nan".data

/-- `float(s)` raises `ValueError`. -/
def pyFloatRaises (s : List Char) : Bool :=
  (pyFloatParse s).isNone && !isSpecialFloatLit s

/-! ### `parse_indonesian_number` (utils.py lines 518-539) -/

/-- `value.strip().replace('.', '').replace(',', '.')`. -/
def indoCleaned (v : List Char) : List Char :=
  ((pyStrip v).filter (fun c => c ≠ '.')).map (fun c => if c = ',' then '.' else c)

/-- `parse_indonesian_number`.  A `ValueError` from `float` yields `0.0`;
the out-of-model non-finite literals are also mapped to `0` here (no claim
depends on them, see `pyFloatRaises`). -/
def parse_indonesian_number (value : String) : Dec :=
  if pyStrip value.data = [] then 0
  else
    match pyFloatParse (indoCleaned value.data) with
    | some q => q
    | none => 0

/-! ### Python fixed-point formatting

`f'{x:.2f}'` and `f'{x:,.2f}'` round to two decimals with round-half-even;
on the exact decimals arising here this agrees with CPython. -/

def roundHalfEven2 (q : Dec) : Int :=
  let x := Dec.norm ⟨q.num * 100, q.exp⟩
  let fl := x.floorD
  let r := x.sub ⟨fl, 0⟩
  if r < (⟨5, 1⟩ : Dec) then fl
  else if (⟨5, 1⟩ : Dec) < r then fl + 1
  else if fl % 2 = 0 then fl else fl + 1

def pad2 (n : Nat) : List Char :=
  if n < 10 then '0' :: (Nat.repr n).data else (Nat.repr n).data

/-- `f'{q:.2f}'` (for the values arising here; Python's `-0.00` corner for
negative values rounding to zero is outside the claims). -/
def fmtFixed2 (q : Dec) : List Char :=
  let n := roundHalfEven2 q
  let sgn : List Char := if n < 0 then ['-'] else []
  let m := n.natAbs
  sgn ++ (Nat.repr (m / 100)).data ++ '.' :: pad2 (m % 100)

def group3Aux : List Char → List Char
  | a :: b :: c :: d :: rest => a :: b :: c :: ',' :: group3Aux (d :: rest)
  | l => l

/-- Insert thousands separators into a most-significant-first digit string. -/
def group3 (ds : List Char) : List Char :=
  (group3Aux ds.reverse).reverse

/-- `f'{q:,.2f}'`. -/
def fmtComma2 (q : Dec) : List Char :=
  let n := roundHalfEven2 q
  let sgn : List Char := if n < 0 then ['-'] else []
  let m := n.natAbs
  sgn ++ group3 (Nat.repr (m / 100)).data ++ '.' :: pad2 (m % 100)

/-! ### `_format_number_for_csv` (utils.py lines 356-418) -/

/-- Python `str.rfind` (index of last occurrence, `-1` if absent). -/
def rlastIdx (l : List Char) (c : Char) : ℤ :=
  (l.foldl (fun (st : ℤ × ℤ) d => (st.1 + 1, if d = c then st.1 else st.2)) (0, -1)).2

/-- `formatted[:-3] if formatted.endswith('.00') else formatted`. -/
def fmtDropZeroZero (f : List Char) : List Char :=
  if f.reverse.take 3 = ['0', '0', '.'] then (f.reverse.drop 3).reverse else f

def _format_number_for_csv (value : String) : String :=
  let v := value.data
  if v = [] || pyStrip v = [] then ""
  else if !(v.any isDigitC) then value
  else
    let original := pyStrip v
    let finish : Dec → String := fun parsed => pyStr (fmtDropZeroZero (fmtFixed2 parsed))
    if original.contains ',' && original.contains '.' then
      if rlastIdx original '.' < rlastIdx original ',' then
        finish (parse_indonesian_number (pyStr original))
      else
        match pyFloatParse (original.filter (fun c => c ≠ ',')) with
        | some p => finish p
        | none => pyStr original
    else if original.contains ',' then
      match pyFloatParse (original.filter (fun c => c ≠ ',')) with
      | some p => finish p
      | none => pyStr original
    else
      match pyFloatParse original with
      | some p => finish p
      | none => pyStr original

/-! ### debit/credit sums (utils.py lines 643-674) -/

/-- Python `txn.get(key, '')` on the dict-as-association-list model. -/
def pyGet (d : Txn) (k : String) : String := (d.lookup k).getD ""

def calculate_debit_sum (transactions : List Txn) : Dec :=
  transactions.foldl (fun total txn => total.add (parse_indonesian_number (pyGet txn "debit"))) 0

def calculate_credit_sum (transactions : List Txn) : Dec :=
  transactions.foldl (fun total txn => total.add (parse_indonesian_number (pyGet txn "credit"))) 0

/-! ### `extract_summary_totals` (utils.py lines 542-640) -/

/-- Case-insensitive literal match (ASCII lowering, as Python `re.IGNORECASE`
on these ASCII patterns); returns the actually consumed characters. -/
def matchCI : List Char → List Char → Option (List Char × List Char)
  | [], s => some ([], s)
  | l :: ls, c :: cs =>
    if toLowerC l = toLowerC c then
      match matchCI ls cs with
      | some (a, r) => some (c :: a, r)
      | none => none
    else none
  | _ :: _, [] => none

def matchCIS (lit : String) (s : List Char) : Option (List Char × List Char) :=
  matchCI lit.data s

/-- Generic `re.search` driver: attempt the anchored matcher at each
position, left to right. -/
def searchWith {α : Type} (tm : List Char → Option α) : List Char → Option α
  | [] => tm []
  | c :: cs =>
    match tm (c :: cs) with
    | some r => some r
    | none => searchWith tm cs

/-- Anchored matcher for `W1\s+W2\s+W3\s*[:\s]*([\d\.,]+)` (IGNORECASE).
All quantifier boundaries are between disjoint character classes, so the
greedy matching is deterministic. -/
def tryTotalAt (w1 w2 w3 : String) (s : List Char) : Option (List Char) :=
  match matchCIS w1 s with
  | none => none
  | some (_, r1) =>
    let ws1 := r1.takeWhile isWsC
    if ws1 = [] then none else
    match matchCIS w2 (r1.dropWhile isWsC) with
    | none => none
    | some (_, r2) =>
      let ws2 := r2.takeWhile isWsC
      if ws2 = [] then none else
      match matchCIS w3 (r2.dropWhile isWsC) with
      | none => none
      | some (_, r3) =>
        let r4 := r3.dropWhile isWsC
        let r5 := r4.dropWhile (fun c => c = ':' || isWsC c)
        let grp := r5.takeWhile isNumTok
        if grp = [] then none else some grp

def searchTotal (w1 w2 w3 : String) (t : List Char) : Option (List Char) :=
  searchWith (tryTotalAt w1 w2 w3) t

/-- `^W1\s+W2$` (IGNORECASE) via `re.match` on a line (`$` also matches just
before a terminal newline). -/
def matchTwoWordsCI (w1 w2 : String) (s : List Char) : Bool :=
  match matchCIS w1 s with
  | none => false
  | some (_, r1) =>
    let ws := r1.takeWhile isWsC
    if ws = [] then false else
    match matchCIS w2 (r1.dropWhile isWsC) with
    | none => false
    | some (_, r2) => r2 = [] || r2 = ['\n']

inductive LType
  | opening
  | tdebit
  | tcredit
  | closing
deriving DecidableEq, Repr

/-- `^W1\s+W2\s+W3$` (IGNORECASE) via `re.match` on a line. -/
def matchThreeWordsCI (w1 w2 w3 : String) (s : List Char) : Bool :=
  match matchCIS w1 s with
  | none => false
  | some (_, r1) =>
    let ws := r1.takeWhile isWsC
    if ws = [] then false else
    match matchCIS w2 (r1.dropWhile isWsC) with
    | none => false
    | some (_, r2) =>
      let ws2 := r2.takeWhile isWsC
      if ws2 = [] then false else
      match matchCIS w3 (r2.dropWhile isWsC) with
      | none => false
      | some (_, r3) => r3 = [] || r3 = ['\n']

/-- `_SUMMARY_LABEL_PATTERNS`, tried in source order with `break` on the
first match. -/
def labelOf (lc : List Char) : Option LType :=
  if matchTwoWordsCI "Saldo" "Awal" lc || matchTwoWordsCI "Opening" "Balance" lc then
    some .opening
  else if matchThreeWordsCI "Total" "Transaksi" "Debet" lc ||
      matchThreeWordsCI "Total" "Debit" "Transaction" lc then
    some .tdebit
  else if matchThreeWordsCI "Total" "Transaksi" "Kredit" lc ||
      matchThreeWordsCI "Total" "Credit" "Transaction" lc then
    some .tcredit
  else if matchTwoWordsCI "Saldo" "Akhir" lc || matchTwoWordsCI "Closing" "Balance" lc then
    some .closing
  else none

/-- The label-collection loop (deduplicating by label type, keeping the
first occurrence, in scan order). -/
def collectLabelsAux : List (List Char) → Nat → List LType → List (LType × Nat)
  | [], _, _ => []
  | l :: ls, i, found =>
    match labelOf (pyStrip l) with
    | some t =>
      if t ∈ found then collectLabelsAux ls (i + 1) found
      else (t, i) :: collectLabelsAux ls (i + 1) (t :: found)
    | none => collectLabelsAux ls (i + 1) found

/-- The values-collection loop: gather numeric lines from `start`, stopping
at a non-`[\d,.]*` line only once at least two values were seen. -/
def collectValuesAux (lines : List (List Char)) :
    Nat → Nat → List (Nat × List Char) → List (Nat × List Char)
  | 0, _, acc => acc
  | fuel + 1, i, acc =>
    if i < lines.length then
      let line := pyStrip (lines.getD i [])
      if numericLineMatch line then collectValuesAux lines fuel (i + 1) (acc ++ [(i, line)])
      else if !numericOnlyMatch line then
        if 2 ≤ acc.length then acc
        else collectValuesAux lines fuel (i + 1) acc
      else collectValuesAux lines fuel (i + 1) acc
    else acc

structure SummaryTotals where
  total_debit : Option String
  total_credit : Option String
  opening_balance : Option String
  closing_balance : Option String
deriving DecidableEq, Repr

def setLabel (r : SummaryTotals) (t : LType) (v : String) : SummaryTotals :=
  match t with
  | .opening => { r with opening_balance := some v }
  | .tdebit => { r with total_debit := some v }
  | .tcredit => { r with total_credit := some v }
  | .closing => { r with closing_balance := some v }

def extract_summary_totals (text : String) : SummaryTotals :=
  let lines := splitNL text.data
  let labels := collectLabelsAux lines 0 []
  let base : SummaryTotals := ⟨none, none, none, none⟩
  let r1 : SummaryTotals :=
    match labels with
    | [] => base
    | (t0, p0) :: rest =>
      let start := rest.foldl (fun m x => Nat.min m x.2) p0
      let values := collectValuesAux lines lines.length start []
      if values ≠ [] ∧ labels.length ≤ values.length then
        (((t0, p0) :: rest).zip values).foldl
          (fun r pr => setLabel r pr.1.1 (pyStr pr.2.2)) base
      else if values ≠ [] then
        ((t0, p0) :: rest).foldl
          (fun r pr =>
            match values.find? (fun q => pr.2 < q.1) with
            | some q => setLabel r pr.1 (pyStr q.2)
            | none => r)
          base
      else base
  let r2 : SummaryTotals :=
    if r1.total_debit = none then
      match searchTotal "Total" "Transaksi" "Debet" text.data with
      | some g => { r1 with total_debit := some (pyStr (pyStrip g)) }
      | none =>
        match searchTotal "Total" "Debit" "Transaction" text.data with
        | some g => { r1 with total_debit := some (pyStr (pyStrip g)) }
        | none => r1
    else r1
  if r2.total_credit = none then
    match searchTotal "Total" "Transaksi" "Kredit" text.data with
    | some g => { r2 with total_credit := some (pyStr (pyStrip g)) }
    | none =>
      match searchTotal "Total" "Credit" "Transaction" text.data with
      | some g => { r2 with total_credit := some (pyStr (pyStrip g)) }
      | none => r2
  else r2

/-! ### `preprocess_text` (pdfoxide_parser.py lines 17-104)

Each `re.sub` pass is a left-to-right scan: at every position the anchored
matcher is attempted; on success the replacement is emitted and the scan
resumes after the match, otherwise one character is copied.  Every pattern
below consumes at least one character, so fuel `length + 1` computes the
exact unbounded scan. -/

def substAux (tm : List Char → Option (List Char × List Char)) : Nat → List Char → List Char
  | 0, s => s
  | fuel + 1, s =>
    match tm s with
    | some (rep, rest) => rep ++ substAux tm fuel rest
    | none =>
      match s with
      | [] => []
      | c :: cs => c :: substAux tm fuel cs

def subst (tm : List Char → Option (List Char × List Char)) (s : List Char) : List Char :=
  substAux tm (s.length + 1) s

/-- Negative lookahead `(?!AM|PM)` (case-sensitive). -/
def lookNotAMPM (t : List Char) : Bool :=
  match t with
  | 'A' :: 'M' :: _ => false
  | 'P' :: 'M' :: _ => false
  | _ => true

/-- Greedy `\s+` before the lookahead: longest run first, backing off while
the lookahead rejects. -/
def pickWsK (time wsRun tailRest : List Char) : Nat → Option (List Char × List Char)
  | 0 => none
  | k + 1 =>
    let after := wsRun.drop (k + 1) ++ tailRest
    if lookNotAMPM after then some (time ++ ['\n'], after) else pickWsK time wsRun tailRest k

/-- `(\d{2}:\d{2}:\d{2})\s+(?!AM|PM)` → `\1\n`. -/
def tryDateTime (s : List Char) : Option (List Char × List Char) :=
  match s with
  | a :: b :: ':' :: c :: d :: ':' :: e :: f :: rest =>
    if isDigitC a && isDigitC b && isDigitC c && isDigitC d && isDigitC e && isDigitC f then
      pickWsK [a, b, ':', c, d, ':', e, f] (rest.takeWhile isWsC) (rest.dropWhile isWsC)
        (rest.takeWhile isWsC).length
    else none
  | _ => none

/-- `(\.\d{2})([\d,]+\.\d{2})` → `\1\n\2` (disjoint classes at every
quantifier boundary, hence deterministic greedy matching). -/
def tryAmtSmash (s : List Char) : Option (List Char × List Char) :=
  match s with
  | '.' :: a :: b :: rest =>
    if isDigitC a && isDigitC b then
      let run := rest.takeWhile isDC
      if run = [] then none else
      match rest.dropWhile isDC with
      | '.' :: c :: d :: rest2 =>
        if isDigitC c && isDigitC d then
          some ('.' :: a :: b :: '\n' :: (run ++ '.' :: c :: d :: []), rest2)
        else none
      | _ => none
    else none
  | _ => none

/-- `([\d,]+\.\d{2})\s+([\d,]+\.\d{2})` → `\1\n\2`. -/
def tryAmtSpace (s : List Char) : Option (List Char × List Char) :=
  let run1 := s.takeWhile isDC
  if run1 = [] then none else
  match s.dropWhile isDC with
  | '.' :: a :: b :: rest =>
    if isDigitC a && isDigitC b then
      let ws := rest.takeWhile isWsC
      if ws = [] then none else
      let rest2 := rest.dropWhile isWsC
      let run2 := rest2.takeWhile isDC
      if run2 = [] then none else
      match rest2.dropWhile isDC with
      | '.' :: c :: d :: rest3 =>
        if isDigitC c && isDigitC d then
          some (run1 ++ '.' :: a :: b :: '\n' :: (run2 ++ '.' :: c :: d :: []), rest3)
        else none
      | _ => none
    else none
  | _ => none

/-- Greedy `\d{6,8}` of rule `(\d{6,8})([\d,]+\.\d{2})`: try 8, 7, 6 digits
of the maximal digit run, longest first. -/
def tryUserAmtK (run rest : List Char) : Nat → Option (List Char × List Char)
  | 0 => none
  | k + 1 =>
    if k + 1 < 6 then none
    else
      match
        (if k + 1 ≤ run.length then
          let after := run.drop (k + 1) ++ rest
          let run2 := after.takeWhile isDC
          if run2 = [] then none else
          match after.dropWhile isDC with
          | '.' :: a :: b :: rest2 =>
            if isDigitC a && isDigitC b then
              some (run.take (k + 1) ++ '\n' :: (run2 ++ '.' :: a :: b :: []), rest2)
            else none
          | _ => none
        else none) with
      | some r => some r
      | none => tryUserAmtK run rest k

/-- `(\d{6,8})([\d,]+\.\d{2})` → `\1\n\2`. -/
def tryUserAmt (s : List Char) : Option (List Char × List Char) :=
  tryUserAmtK (s.takeWhile isDigitC) (s.dropWhile isDigitC) 8

/-- Greedy `\d{6,8}` of rule `([a-zA-Z])(\d{6,8})\s`. -/
def tryDescUserK (c : Char) (run rest : List Char) : Nat → Option (List Char × List Char)
  | 0 => none
  | k + 1 =>
    if k + 1 < 6 then none
    else
      match
        (if k + 1 ≤ run.length then
          match run.drop (k + 1) ++ rest with
          | w :: rest2 =>
            if isWsC w then some ([c, '\n'] ++ run.take (k + 1) ++ [' '], rest2) else none
          | [] => none
        else none) with
      | some r => some r
      | none => tryDescUserK c run rest k

/-- `([a-zA-Z])(\d{6,8})\s` → `\1\n\2 ` (the trailing whitespace character
is part of the match and is replaced by a plain space). -/
def tryDescUser (s : List Char) : Option (List Char × List Char) :=
  match s with
  | c :: rest =>
    if isAlphaC c then
      tryDescUserK c (rest.takeWhile isDigitC) (rest.dropWhile isDigitC) 8
    else none
  | [] => none

/-- Greedy `\d{6,8}` of rule `\s+(\d{6,8})\s`. -/
def tryWsUserK (run rest : List Char) : Nat → Option (List Char × List Char)
  | 0 => none
  | k + 1 =>
    if k + 1 < 6 then none
    else
      match
        (if k + 1 ≤ run.length then
          match run.drop (k + 1) ++ rest with
          | w :: rest2 =>
            if isWsC w then some ('\n' :: run.take (k + 1) ++ ['\n'], rest2) else none
          | [] => none
        else none) with
      | some r => some r
      | none => tryWsUserK run rest k

/-- `\s+(\d{6,8})\s` → `\n\1\n` (shortening the greedy `\s+` would leave a
whitespace character where `\d` is required, so the maximal run is the only
candidate). -/
def tryWsUser (s : List Char) : Option (List Char × List Char) :=
  let ws := s.takeWhile isWsC
  if ws = [] then none
  else
    let rest := s.dropWhile isWsC
    tryWsUserK (rest.takeWhile isDigitC) (rest.dropWhile isDigitC) 8

/-- `([a-zA-Z])([\d,]+\.\d{2})` → `\1\n\2`. -/
def tryDescAmt (s : List Char) : Option (List Char × List Char) :=
  match s with
  | c :: rest =>
    if isAlphaC c then
      let run := rest.takeWhile isDC
      if run = [] then none else
      match rest.dropWhile isDC with
      | '.' :: a :: b :: rest2 =>
        if isDigitC a && isDigitC b then
          some ([c, '\n'] ++ run ++ '.' :: a :: b :: [], rest2)
        else none
      | _ => none
    else none
  | [] => none

/-- `([a-zA-Z])\s+([\d,]+\.\d{2})` → `\1\n\2` (the matched whitespace lies
between the two groups, so the replacement drops it). -/
def tryDescAmtSpace (s : List Char) : Option (List Char × List Char) :=
  match s with
  | c :: rest =>
    if isAlphaC c then
      let ws := rest.takeWhile isWsC
      if ws = [] then none else
      let rest1 := rest.dropWhile isWsC
      let run := rest1.takeWhile isDC
      if run = [] then none else
      match rest1.dropWhile isDC with
      | '.' :: a :: b :: rest2 =>
        if isDigitC a && isDigitC b then
          some ([c, '\n'] ++ run ++ '.' :: a :: b :: [], rest2)
        else none
      | _ => none
    else none
  | [] => none

/-- Continuation of `(No\.?\s*Rekening\s*:?\s*[0-9]*)(Unit\s+Kerja)` after
the optional dot; `pre` holds the group-1 characters consumed so far. -/
def tryRekeningCont (pre r1 : List Char) : Option (List Char × List Char) :=
  let ws1 := r1.takeWhile isWsC
  let r2 := r1.dropWhile isWsC
  match matchCIS "Rekening" r2 with
  | none => none
  | some (c2, r3) =>
    let ws2 := r3.takeWhile isWsC
    let r4 := r3.dropWhile isWsC
    let colonCont := fun (c3 r5 : List Char) =>
      let ws3 := r5.takeWhile isWsC
      let r6 := r5.dropWhile isWsC
      let digits := r6.takeWhile isDigitC
      let r7 := r6.dropWhile isDigitC
      match matchCIS "Unit" r7 with
      | none => none
      | some (c4, r8) =>
        let wsP := r8.takeWhile isWsC
        if wsP = [] then none else
        match matchCIS "Kerja" (r8.dropWhile isWsC) with
        | none => none
        | some (c5, r10) =>
          let g1 := pre ++ ws1 ++ c2 ++ ws2 ++ c3 ++ ws3 ++ digits
          let g2 := c4 ++ wsP ++ c5
          some (g1 ++ '\n' :: g2, r10)
    match r4 with
    | ':' :: rr =>
      match colonCont [':'] rr with
      | some r => some r
      | none => colonCont [] (':' :: rr)
    | _ => colonCont [] r4

/-- `(No\.?\s*Rekening\s*:?\s*[0-9]*)(Unit\s+Kerja)` → `\1\n\2`
(IGNORECASE). -/
def tryRekening (s : List Char) : Option (List Char × List Char) :=
  match matchCIS "No" s with
  | none => none
  | some (c0, r0) =>
    match r0 with
    | '.' :: rr =>
      match tryRekeningCont (c0 ++ ['.']) rr with
      | some r => some r
      | none => tryRekeningCont c0 ('.' :: rr)
    | _ => tryRekeningCont c0 r0

/-- `Alamat\s+Unit\s+Kerja` (IGNORECASE); returns the consumed text. -/
def tryAlamatUK (t : List Char) : Option (List Char × List Char) :=
  match matchCIS "Alamat" t with
  | none => none
  | some (a0, r1) =>
    let w1 := r1.takeWhile isWsC
    if w1 = [] then none else
    match matchCIS "Unit" (r1.dropWhile isWsC) with
    | none => none
    | some (a1, r2) =>
      let w2 := r2.takeWhile isWsC
      if w2 = [] then none else
      match matchCIS "Kerja" (r2.dropWhile isWsC) with
      | none => none
      | some (a2, r3) => some (a0 ++ w1 ++ a1 ++ w2 ++ a2, r3)

/-- Lazy `.*?` before `Alamat\s+Unit\s+Kerja`: shortest first, and `.` does
not match a newline (`Alamat` cannot match the empty remainder, hence the
empty case is a plain failure). -/
def lazyScanNP (g1pre acc : List Char) : List Char → Option (List Char × List Char)
  | [] => none
  | c :: ts =>
    match tryAlamatUK (c :: ts) with
    | some (g2, rest) => some (g1pre ++ acc ++ '\n' :: g2, rest)
    | none => if c = '\n' then none else lazyScanNP g1pre (acc ++ [c]) ts

/-- Greedy `\s*` after the colon of `Nama\s+Produk\s*:\s*.*?`: longest run
first, backing off one whitespace character at a time. -/
def tryNPJ (g1base wsRun afterWs : List Char) : Nat → Option (List Char × List Char)
  | 0 => lazyScanNP g1base [] (wsRun ++ afterWs)
  | j + 1 =>
    match lazyScanNP (g1base ++ wsRun.take (j + 1)) [] (wsRun.drop (j + 1) ++ afterWs) with
    | some r => some r
    | none => tryNPJ g1base wsRun afterWs j

/-- `(Nama\s+Produk\s*:\s*.*?)(Alamat\s+Unit\s+Kerja)` → `\1\n\2`
(IGNORECASE). -/
def tryNamaProduk (s : List Char) : Option (List Char × List Char) :=
  match matchCIS "Nama" s with
  | none => none
  | some (c0, r0) =>
    let w1 := r0.takeWhile isWsC
    if w1 = [] then none else
    match matchCIS "Produk" (r0.dropWhile isWsC) with
    | none => none
    | some (c1, r2) =>
      let w2 := r2.takeWhile isWsC
      match r2.dropWhile isWsC with
      | ':' :: r4 =>
        tryNPJ (c0 ++ w1 ++ c1 ++ w2 ++ [':']) (r4.takeWhile isWsC) (r4.dropWhile isWsC)
          (r4.takeWhile isWsC).length
      | _ => none

/-- Continuation of `(Valuta:?\s*[A-Z]{3})\s*(Currency)` after the optional
colon (with IGNORECASE, `[A-Z]` also matches lowercase letters; the `\s*`
between the groups is dropped by the replacement `\1\n\2`). -/
def tryValutaCont (pre r : List Char) : Option (List Char × List Char) :=
  let ws := r.takeWhile isWsC
  match r.dropWhile isWsC with
  | a :: b :: c :: r2 =>
    if isAlphaC a && isAlphaC b && isAlphaC c then
      match matchCIS "Currency" (r2.dropWhile isWsC) with
      | none => none
      | some (c2, r3) => some (pre ++ ws ++ [a, b, c] ++ '\n' :: c2, r3)
    else none
  | _ => none

/-- `(Valuta:?\s*[A-Z]{3})\s*(Currency)` → `\1\n\2` (IGNORECASE). -/
def tryValuta (s : List Char) : Option (List Char × List Char) :=
  match matchCIS "Valuta" s with
  | none => none
  | some (c0, r0) =>
    match r0 with
    | ':' :: rr =>
      match tryValutaCont (c0 ++ [':']) rr with
      | some r => some r
      | none => tryValutaCont c0 (':' :: rr)
    | _ => tryValutaCont c0 r0

/-- `preprocess_text` (pdfoxide_parser.py): the ordered substitution
pipeline; the two amount-amount rules are applied twice, as in the source. -/
def preprocess_text (text : String) : String :=
  if text = "" then ""
  else
    let t1 := subst tryDateTime text.data
    let t2 := subst tryAmtSmash t1
    let t3 := subst tryAmtSmash t2
    let t4 := subst tryAmtSpace t3
    let t5 := subst tryAmtSpace t4
    let t6 := subst tryUserAmt t5
    let t7 := subst tryDescUser t6
    let t8 := subst tryWsUser t7
    let t9 := subst tryDescAmt t8
    let t10 := subst tryDescAmtSpace t9
    let t11 := subst tryRekening t10
    let t12 := subst tryNamaProduk t11
    let t13 := subst tryValuta t12
    pyStr t13

/-! ### `extract_metadata` (utils.py lines 150-227)

The seven label-anchored `re.search` patterns are hand-compiled.  Variable
pieces whose class overlaps what follows are enumerated with genuine
backtracking (longest-first for greedy pieces, alternation left-first,
optional groups present-first); pieces followed by a disjoint class are
deterministic maximal munch. -/

def isAlnumC (c : Char) : Bool := isAlphaC c || isDigitC c

/-- `W1\s+W2` (IGNORECASE), returning the remainder. -/
def matchTwoCI (w1 w2 : String) (s : List Char) : Option (List Char) :=
  match matchCIS w1 s with
  | none => none
  | some (_, r1) =>
    if r1.takeWhile isWsC = [] then none
    else
      match matchCIS w2 (r1.dropWhile isWsC) with
      | none => none
      | some (_, r2) => some r2

/-- `W1\s+W2\s+W3` (IGNORECASE), returning the remainder. -/
def matchThreeCI (w1 w2 w3 : String) (s : List Char) : Option (List Char) :=
  match matchTwoCI w1 w2 s with
  | none => none
  | some r2 =>
    if r2.takeWhile isWsC = [] then none
    else
      match matchCIS w3 (r2.dropWhile isWsC) with
      | none => none
      | some (_, r3) => some r3

/-- `\s*\n` with backtracking: the newline consumed is some newline inside
the whitespace run, longest `\s*` first; the continuation may reject. -/
def wsStarNLAux {α : Type} (run rest : List Char) (k : List Char → Option α) : Nat → Option α
  | 0 => none
  | j + 1 =>
    if run.getD j ' ' = '\n' then
      match k (run.drop (j + 1) ++ rest) with
      | some r => some r
      | none => wsStarNLAux run rest k j
    else wsStarNLAux run rest k j

def wsStarNL {α : Type} (s : List Char) (k : List Char → Option α) : Option α :=
  wsStarNLAux (s.takeWhile isWsC) (s.dropWhile isWsC) k (s.takeWhile isWsC).length

/-- `\s*([^\n]+)` at the end of a pattern: the group must be non-empty, so
the greedy `\s*` backs off (longest first) until a non-newline character
starts the group. -/
def wsGroupAux (run rest : List Char) : Nat → Option (List Char)
  | 0 =>
    let g := (run ++ rest).takeWhile (fun c => c ≠ '\n')
    if g = [] then none else some g
  | j + 1 =>
    let g := (run.drop (j + 1) ++ rest).takeWhile (fun c => c ≠ '\n')
    if g = [] then wsGroupAux run rest j else some g

def wsStarNonNL (s : List Char) : Option (List Char) :=
  wsGroupAux (s.takeWhile isWsC) (s.dropWhile isWsC) (s.takeWhile isWsC).length

/-- `\s*[:\s]*([^\n]+)` at the end of a pattern (`\s ⊆ [:\s]`, so the two
quantifiers together reach exactly the positions inside the `[:\s]` run,
preferred longest-consumption-first). -/
def colonWsGroupAux (run rest : List Char) : Nat → Option (List Char)
  | 0 =>
    let g := (run ++ rest).takeWhile (fun c => c ≠ '\n')
    if g = [] then none else some g
  | j + 1 =>
    let g := (run.drop (j + 1) ++ rest).takeWhile (fun c => c ≠ '\n')
    if g = [] then colonWsGroupAux run rest j else some g

def colonWsGroupNonNL (s : List Char) : Option (List Char) :=
  let p := fun (c : Char) => c = ':' || isWsC c
  colonWsGroupAux (s.takeWhile p) (s.dropWhile p) (s.takeWhile p).length

/-- `ACCOUNT_NO_PATTERN = No\.?\s*Rekening\s*\n(?:Account\s+No\s*\n)?\s*:?\s*([0-9]+)`. -/
def optAccountNo {α : Type} (s : List Char) (k : List Char → Option α) : Option α :=
  match
    (match matchTwoCI "Account" "No" s with
     | some r2 => wsStarNL r2 k
     | none => none) with
  | some r => some r
  | none => k s

def tryAccountNoAt (s : List Char) : Option (List Char) :=
  let afterDot := fun (r : List Char) =>
    match matchCIS "Rekening" (r.dropWhile isWsC) with
    | none => none
    | some (_, r2) =>
      wsStarNL r2 (fun r3 =>
        optAccountNo r3 (fun r4 =>
          let tailCont := fun (r6 : List Char) =>
            let ds := (r6.dropWhile isWsC).takeWhile isDigitC
            if ds = [] then none else some ds
          match r4.dropWhile isWsC with
          | ':' :: rr =>
            match tailCont rr with
            | some g => some g
            | none => tailCont (':' :: rr)
          | r5 => tailCont r5))
  match matchCIS "No" s with
  | none => none
  | some (_, r0) =>
    match r0 with
    | '.' :: rr =>
      match afterDot rr with
      | some g => some g
      | none => afterDot ('.' :: rr)
    | _ => afterDot r0

/-- `BUSINESS_UNIT_PATTERN =
(?:Unit\s+Kerja\s*\n)?Business\s+Unit\s*\n\s*:\s*\n\s*([^\n]+)`. -/
def optUnitKerja {α : Type} (s : List Char) (k : List Char → Option α) : Option α :=
  match
    (match matchTwoCI "Unit" "Kerja" s with
     | some r2 => wsStarNL r2 k
     | none => none) with
  | some r => some r
  | none => k s

def tryBusinessUnitAt (s : List Char) : Option (List Char) :=
  optUnitKerja s (fun s1 =>
    match matchTwoCI "Business" "Unit" s1 with
    | none => none
    | some r2 =>
      wsStarNL r2 (fun r3 =>
        match r3.dropWhile isWsC with
        | ':' :: r5 => wsStarNL r5 (fun r6 => wsStarNonNL r6)
        | _ => none))

/-- The starred `(?:\s+[A-Za-z0-9]+)*` of `PRODUCT_NAME_PATTERN`: each
iteration needs whitespace then an alphanumeric run, deterministically. -/
def prodStar : Nat → List Char → List Char → List Char × List Char
  | 0, acc, s => (acc, s)
  | fuel + 1, acc, s =>
    let ws := s.takeWhile isWsC
    if ws = [] then (acc, s)
    else
      let r1 := s.dropWhile isWsC
      let w := r1.takeWhile isAlnumC
      if w = [] then (acc, s)
      else prodStar fuel (acc ++ ws ++ w) (r1.dropWhile isAlnumC)

/-- Group of `PRODUCT_NAME_PATTERN`:
`([A-Za-z0-9]+(?:\s+[A-Za-z0-9]+)*(?:\.[A-Za-z]+)?)`. -/
def prodGroup (s : List Char) : Option (List Char) :=
  let w1 := s.takeWhile isAlnumC
  if w1 = [] then none
  else
    let stars := prodStar (s.length + 1) [] (s.dropWhile isAlnumC)
    match stars.2 with
    | '.' :: rr =>
      let ls := rr.takeWhile isAlphaC
      if ls = [] then some (w1 ++ stars.1) else some (w1 ++ stars.1 ++ '.' :: ls)
    | _ => some (w1 ++ stars.1)

/-- `PRODUCT_NAME_PATTERN = (?:Nama\s+Produk\s*\n)?Product\s+Name\s*[:\s]*(...)`
(the group starts with an alphanumeric character, disjoint from `[:\s]`,
so the two quantifiers are deterministic maximal munch). -/
def optNamaProduk {α : Type} (s : List Char) (k : List Char → Option α) : Option α :=
  match
    (match matchTwoCI "Nama" "Produk" s with
     | some r2 => wsStarNL r2 k
     | none => none) with
  | some r => some r
  | none => k s

def tryProdNameAt (s : List Char) : Option (List Char) :=
  optNamaProduk s (fun s1 =>
    match matchTwoCI "Product" "Name" s1 with
    | none => none
    | some r2 =>
      prodGroup ((r2.dropWhile isWsC).dropWhile (fun c => c = ':' || isWsC c)))

/-- `STATEMENT_DATE_PATTERN = Statement\s+Date\s*[:\s]*([^\n]+)`. -/
def tryStmtDateAt (s : List Char) : Option (List Char) :=
  match matchTwoCI "Statement" "Date" s with
  | none => none
  | some r => colonWsGroupNonNL r

/-- `VALUTA_PATTERN =
(?:Valuta|Currency)\s*\n(?:Currency|Valuta)?\s*\n\s*:?\s*([A-Z]{3})`
(with IGNORECASE the class `[A-Z]` also matches lowercase letters). -/
def tryValutaMetaAt (s : List Char) : Option (List Char) :=
  let cont := fun (r1 : List Char) =>
    wsStarNL r1 (fun r2 =>
      let withOpt := fun (r3 : List Char) =>
        wsStarNL r3 (fun r4 =>
          let colCont := fun (r6 : List Char) =>
            match r6.dropWhile isWsC with
            | a :: b :: c :: _ =>
              if isAlphaC a && isAlphaC b && isAlphaC c then some [a, b, c] else none
            | _ => none
          match r4.dropWhile isWsC with
          | ':' :: rr =>
            match colCont rr with
            | some g => some g
            | none => colCont (':' :: rr)
          | r5 => colCont r5)
      match
        (match matchCIS "Currency" r2 with
         | some (_, rr) => withOpt rr
         | none => none) with
      | some g => some g
      | none =>
        match
          (match matchCIS "Valuta" r2 with
           | some (_, rr) => withOpt rr
           | none => none) with
        | some g => some g
        | none => withOpt r2)
  match
    (match matchCIS "Valuta" s with
     | some (_, r) => cont r
     | none => none) with
  | some g => some g
  | none =>
    match matchCIS "Currency" s with
    | some (_, r) => cont r
    | none => none

/-- Group of `UNIT_ADDRESS_PATTERN`:
`([A-Za-z][^\n]*(?:\s+[A-Za-z][^\n]*)?)`.  The optional part can match
empty, so the greedy `[^\n]*` never backs off; the optional tail is taken
when, after the first line, whitespace and then a letter follow. -/
def addrGroup (s : List Char) : Option (List Char) :=
  match s with
  | c :: rest =>
    if isAlphaC c then
      let a := rest.takeWhile (fun x => x ≠ '\n')
      let r1 := rest.dropWhile (fun x => x ≠ '\n')
      let ws := r1.takeWhile isWsC
      match
        (if ws = [] then none
         else
           match r1.dropWhile isWsC with
           | d :: rr =>
             if isAlphaC d then some (c :: a ++ ws ++ d :: rr.takeWhile (fun x => x ≠ '\n'))
             else none
           | [] => none) with
      | some g => some g
      | none => some (c :: a)
    else none
  | [] => none

/-- `UNIT_ADDRESS_PATTERN = (?:Alamat\s+Unit\s+Kerja|Business\s+Unit\s+Address)
\s*\n\s*:\s*\n\s*([A-Za-z][^\n]*(?:\s+[A-Za-z][^\n]*)?)`. -/
def tryUnitAddrAt (s : List Char) : Option (List Char) :=
  let cont := fun (r : List Char) =>
    wsStarNL r (fun r3 =>
      match r3.dropWhile isWsC with
      | ':' :: r5 => wsStarNL r5 (fun r6 => addrGroup (r6.dropWhile isWsC))
      | _ => none)
  match
    (match matchThreeCI "Alamat" "Unit" "Kerja" s with
     | some r => cont r
     | none => none) with
  | some g => some g
  | none =>
    match matchThreeCI "Business" "Unit" "Address" s with
    | some r => cont r
    | none => none

/-- `TRANSACTION_PERIOD_PATTERN = (?:Periode\s+Transaksi|Transaction\s+Period)
\s*\n(?:Transaction\s+Periode|Transaction\s+Period)?\s*\n\s*:\s*\n\s*([^\n]+)`. -/
def tryPeriodAt (s : List Char) : Option (List Char) :=
  let cont := fun (r2 : List Char) =>
    wsStarNL r2 (fun r3 =>
      let afterOpt := fun (r4 : List Char) =>
        wsStarNL r4 (fun r5 =>
          match r5.dropWhile isWsC with
          | ':' :: r7 => wsStarNL r7 (fun r8 => wsStarNonNL r8)
          | _ => none)
      match
        (match matchTwoCI "Transaction" "Periode" r3 with
         | some rr => afterOpt rr
         | none => none) with
      | some g => some g
      | none =>
        match
          (match matchTwoCI "Transaction" "Period" r3 with
           | some rr => afterOpt rr
           | none => none) with
        | some g => some g
        | none => afterOpt r3)
  match
    (match matchTwoCI "Periode" "Transaksi" s with
     | some r => cont r
     | none => none) with
  | some g => some g
  | none =>
    match matchTwoCI "Transaction" "Period" s with
    | some r => cont r
    | none => none

/-- `_LABEL_INDICATORS` (utils.py lines 164-168). -/
def _LABEL_INDICATORS : List String :=
  ["unit kerja", "nama produk", "alamat unit", "valuta", "currency",
   "tanggal transaksi", "uraian transaksi", "teller", "user id",
   "debet", "kredit", "saldo", "transaction date", "transaction description"]

def pyLower (l : List Char) : List Char := l.map toLowerC

/-- `is_likely_label`: membership of `value.lower().strip()`. -/
def is_likely_label (v : String) : Bool :=
  _LABEL_INDICATORS.contains (pyStr (pyStrip (pyLower v.data)))

/-- `re.sub(r'\s+', ' ', address)`. -/
def collapseWsAux (prevWs : Bool) : List Char → List Char
  | [] => []
  | c :: cs =>
    if isWsC c then
      if prevWs then collapseWsAux true cs else ' ' :: collapseWsAux true cs
    else c :: collapseWsAux false cs

def collapseWs (l : List Char) : List Char := collapseWsAux false l

/-- `product_name[:-4] if product_name.endswith('-IDR') else product_name`. -/
def stripIDRSuffix (p : List Char) : List Char :=
  if p.reverse.take 4 = ['R', 'D', 'I', '-'] then (p.reverse.drop 4).reverse else p

structure Metadata where
  account_no : String
  business_unit : String
  product_name : String
  statement_date : String
  valuta : String
  unit_address : String
  transaction_period : String
deriving DecidableEq, Repr

def extract_metadata (text : String) : Metadata :=
  let t := text.data
  let account_no :=
    match searchWith tryAccountNoAt t with
    | some g =>
      let a := pyStr (pyStrip g)
      if is_likely_label a then "" else a
    | none => ""
  let business_unit :=
    match searchWith tryBusinessUnitAt t with
    | some g => pyStr (pyStrip g)
    | none => ""
  let product_name :=
    match searchWith tryProdNameAt t with
    | some g =>
      let p := pyStr (pyStrip g)
      let p2 := if is_likely_label p then "" else p
      pyStr (stripIDRSuffix p2.data)
    | none => ""
  let statement_date :=
    match searchWith tryStmtDateAt t with
    | some g => pyStr (pyStrip g)
    | none => ""
  let valuta :=
    match searchWith tryValutaMetaAt t with
    | some g => pyStr (pyStrip g)
    | none => ""
  let unit_address :=
    match searchWith tryUnitAddrAt t with
    | some g =>
      let address := pyStr (collapseWs (pyStrip g))
      if !is_likely_label address then address else ""
    | none => ""
  let transaction_period :=
    match searchWith tryPeriodAt t with
    | some g => pyStr (pyStrip g)
    | none => ""
  ⟨account_no, business_unit, product_name, statement_date, valuta, unit_address,
    transaction_period⟩

/-! ### `verify_turnover` (utils.py lines 677-760) -/

structure VerifyResult where
  passed : Bool
  debit_match : Bool
  credit_match : Bool
  total_debit_extracted : Option String
  total_debit_calculated : Dec
  debit_discrepancy : Dec
  total_credit_extracted : Option String
  total_credit_calculated : Dec
  credit_discrepancy : Dec
  status : String
  message : String
deriving DecidableEq, Repr

/-- `parse_indonesian_number(v) if v else None` applied to an optional
extracted total (Python truthiness: `None` and `''` are falsy). -/
def extractedDec : Option String → Option Dec
  | some s => if s = "" then none else some (parse_indonesian_number s)
  | none => none

def verify_turnover (transactions : List Txn) (tolerance : Dec) (summary_text : String) :
    VerifyResult :=
  let summary_totals := extract_summary_totals summary_text
  let calculated_debit := calculate_debit_sum transactions
  let calculated_credit := calculate_credit_sum transactions
  let extracted_debit : Option Dec := extractedDec summary_totals.total_debit
  let extracted_credit : Option Dec := extractedDec summary_totals.total_credit
  let dm : Bool × Dec :=
    match extracted_debit with
    | some ed =>
      let d := (ed.sub calculated_debit).absD
      (decide (d ≤ tolerance), d)
    | none => (false, 0)
  let cm : Bool × Dec :=
    match extracted_credit with
    | some ec =>
      let d := (ec.sub calculated_credit).absD
      (decide (d ≤ tolerance), d)
    | none => (false, 0)
  let statusMsg : String × String :=
    if summary_totals.total_debit = none ∧ summary_totals.total_credit = none then
      ("not_available", "Summary totals not found in PDF - verification not applicable")
    else if dm.1 && cm.1 then
      ("passed", "All turnover totals match within tolerance")
    else
      let parts : List String :=
        (if extracted_debit.isSome && !dm.1 then
          ["debit discrepancy: " ++ pyStr (fmtComma2 dm.2)] else []) ++
        (if extracted_credit.isSome && !cm.1 then
          ["credit discrepancy: " ++ pyStr (fmtComma2 cm.2)] else [])
      ("failed", "Turnover mismatch - " ++ String.intercalate ", " parts)
  { passed := statusMsg.1 = "passed"
    debit_match := dm.1
    credit_match := cm.1
    total_debit_extracted := summary_totals.total_debit
    total_debit_calculated := calculated_debit
    debit_discrepancy := dm.2
    total_credit_extracted := summary_totals.total_credit
    total_credit_calculated := calculated_credit
    credit_discrepancy := cm.2
    status := statusMsg.1
    message := statusMsg.2 }


/-! ### Concrete inputs named by the claims -/

/-- The spec's end-to-end input line sequence, joined by newlines. -/
def c1Input : String := "01/01/23 10:00:00\nTransfer\nUser123\n10.000,00\n0,00\n1.000.000,00"

/-- The record the embedded code actually produces on `c1Input`. -/
def c1Record : Txn :=
  [("date", "01/01/23 10:00:00"), ("description", "Transfer User123"),
   ("user", "10.000,00"), ("debit", ""), ("credit", ""), ("balance", "")]

/-- Two transactions whose debits sum to 300000.50 (and credits to 200). -/
def c2Txns : List Txn :=
  [[("debit", "150.000,25"), ("credit", "100,00")],
   [("debit", "150.000,25"), ("credit", "100,00")]]

/-- Summary declaring exactly the computed totals. -/
def c2PassText : String :=
  "Total Transaksi Debet : 300.000,50\nTotal Transaksi Kredit : 200,00"

/-- Summary declaring a debit total of 305000.00 against computed 300000.50. -/
def c2FailText : String :=
  "Total Transaksi Debet : 305.000,00\nTotal Transaksi Kredit : 200,00"

/-! ### Claim theorems -/

/-- Claim C1: for the input line sequence `["01/01/23 10:00:00", "Transfer",
"User123", "10.000,00", "0,00", "1.000.000,00"]`, the claim says
`extract_transactions` returns one record with `debit = "10.000,00"`,
`credit = "0,00"`, `balance = "1.000.000,00"` and `user ≠ "10.000,00"`.
Evaluating the embedded code at exactly this input shows otherwise: the
Indonesian-format token `"10.000,00"` fails `_AMOUNT_PATTERN`
(`^[\d,]+\.\d{2}$`) as well as `_USER_ID_PATTERN`, so the classifier falls
into the defensive fallback branch, stores it as `user`, and leaves debit,
credit and balance empty — contradicting the claim and the repository's own
test `test_extract_indonesian_format_transactions`. -/
theorem c1_fallback_misclassification :
    extract_transactions c1Input = [c1Record] ∧
    pyGet c1Record "user" = "10.000,00" ∧
    pyGet c1Record "debit" = "" ∧
    pyGet c1Record "credit" = "" ∧
    pyGet c1Record "balance" = "" := by
  decide

/-- Claim C3 (counterexample): `preprocess_text` is not idempotent.  On
`"NoRekeningUnit Kerja"` the first pass inserts a newline before
`Unit Kerja`; on the second pass the label rule's trailing `\s*` of group 1
absorbs that newline and the replacement appends another one. -/
theorem c3_not_idempotent :
    preprocess_text (preprocess_text "NoRekeningUnit Kerja") ≠
      preprocess_text "NoRekeningUnit Kerja" := by
  decide

/-- Claim C3 (amended): `preprocess_text` is total (never throws) and maps
the empty string to the empty string, but idempotence fails in general:
re-applying it to the output for `"NoRekeningUnit Kerja"` inserts a second
newline. -/
theorem c3_amended_total_not_idempotent :
    preprocess_text "" = "" ∧
    preprocess_text "NoRekeningUnit Kerja" = "NoRekening\nUnit Kerja" ∧
    preprocess_text (preprocess_text "NoRekeningUnit Kerja") =
      "NoRekening\n\nUnit Kerja" := by
  decide

/-- Claim C4 (counterexample): for the amount-merge input
`"1234567.00" ++ "26,000.00"` one application of `preprocess_text` does
*not* insert exactly one line break between the two amounts: after the
amount-amount rule splits them, the user-amount rule `(\d{6,8})([\d,]+\.\d{2})`
fires inside the first amount's 7-digit integer part and splits it again. -/
theorem c4_seven_digit_counterexample :
    preprocess_text "1234567.0026,000.00" = "123456\n7.00\n26,000.00" ∧
    preprocess_text "1234567.0026,000.00" ≠ "1234567.00\n26,000.00" := by
  decide

/-- Claim C5 (counterexample): on the sum-calculation path the claimed
last-separator disambiguation does not hold: `parse_indonesian_number`
unconditionally strips `.` and turns `,` into the decimal point, so
`"1,234,567.89"` becomes `float("1.234.56789")`, which raises and yields
`0.0` rather than `1234567.89`. -/
theorem c5_us_format_counterexample :
    parse_indonesian_number "1,234,567.89" = 0 ∧ (0 : Dec) ≠ 1234567.89 := by
  decide

/-- Claim C5 (amended): the number resolver's examples hold as stated on the
formatting path, which implements the last-separator rule, and on the sum
path only for the Indonesian and empty inputs; `parse_indonesian_number`
applies the Indonesian interpretation unconditionally and returns `0.0` on
`"1,234,567.89"`. -/
theorem c5_amended_number_resolver :
    parse_indonesian_number "1.234.567,89" = 1234567.89 ∧
    parse_indonesian_number "" = 0 ∧
    parse_indonesian_number "1,234,567.89" = 0 ∧
    _format_number_for_csv "1.234.567,89" = "1234567.89" ∧
    _format_number_for_csv "1,234,567.89" = "1234567.89" := by
  decide

/-- Claim C6 (counterexample): a parse failure on the display path does not
always return the original string: for `"1.2,3x"` (both separators present,
comma last) the Indonesian branch calls `parse_indonesian_number`, whose
failure yields `0.0`, and the display path formats that as `"0"`. -/
theorem c6_display_returns_zero :
    pyFloatRaises (indoCleaned "1.2,3x".data) = true ∧
    _format_number_for_csv "1.2,3x" = "0" ∧
    _format_number_for_csv "1.2,3x" ≠ "1.2,3x" := by
  decide

/-- Claim C6 (amended): on every parse failure the sum-calculation path
(`parse_indonesian_number`) returns `0.0`; the display-formatting path
(`_format_number_for_csv`) returns the original (stripped) string unchanged
on a `float` failure in its US-format and plain branches, but in the
both-separators comma-last branch it delegates to `parse_indonesian_number`,
so a parse failure there is formatted as `"0"`; neither function raises. -/
theorem c6_amended_failure_paths :
    ∀ (value : String),
      (pyFloatParse (indoCleaned value.data) = none →
        parse_indonesian_number value = 0) ∧
      (value.data ≠ [] → pyStrip value.data ≠ [] → value.data.any isDigitC = true →
        (((pyStrip value.data).contains ',' = true →
          (pyStrip value.data).contains '.' = true →
          rlastIdx (pyStrip value.data) '.' < rlastIdx (pyStrip value.data) ',' →
          pyFloatParse (indoCleaned (pyStrip value.data)) = none →
          _format_number_for_csv value = "0") ∧
         ((pyStrip value.data).contains ',' = true →
          (pyStrip value.data).contains '.' = true →
          ¬ rlastIdx (pyStrip value.data) '.' < rlastIdx (pyStrip value.data) ',' →
          pyFloatParse ((pyStrip value.data).filter (fun c => c ≠ ',')) = none →
          _format_number_for_csv value = pyStr (pyStrip value.data)) ∧
         ((pyStrip value.data).contains ',' = true →
          (pyStrip value.data).contains '.' = false →
          pyFloatParse ((pyStrip value.data).filter (fun c => c ≠ ',')) = none →
          _format_number_for_csv value = pyStr (pyStrip value.data)) ∧
         ((pyStrip value.data).contains ',' = false →
          pyFloatParse (pyStrip value.data) = none →
          _format_number_for_csv value = pyStr (pyStrip value.data)))) := by
  intro value
  refine ⟨?_, ?_⟩
  · intro hf
    simp only [parse_indonesian_number]
    split
    · rfl
    · rw [hf]
  · intro hv hs hd
    refine ⟨?_, ?_, ?_, ?_⟩
    · intro hc hp hlt hf
      have hp0 : parse_indonesian_number (pyStr (pyStrip value.data)) = 0 := by
        simp only [parse_indonesian_number]
        split
        · rfl
        · have e : (pyStr (pyStrip value.data)).data = pyStrip value.data := rfl
          rw [e, hf]
      simp only [_format_number_for_csv]
      rw [if_neg (by simp [hv, hs]), if_neg (by simp [hd]), if_pos (by rw [hc, hp]; rfl),
        if_pos hlt, hp0]
      rfl
    · intro hc hp hlt hf
      simp only [_format_number_for_csv]
      rw [if_neg (by simp [hv, hs]), if_neg (by simp [hd]), if_pos (by rw [hc, hp]; rfl),
        if_neg hlt, hf]
    · intro hc hp hf
      simp only [_format_number_for_csv]
      rw [if_neg (by simp [hv, hs]), if_neg (by simp [hd]), if_neg (by rw [hp]; simp),
        if_pos hc, hf]
    · intro hc hf
      simp only [_format_number_for_csv]
      rw [if_neg (by simp [hv, hs]), if_neg (by simp [hd]), if_neg (by rw [hc]; simp),
        if_neg (by rw [hc]; simp), hf]

/-- Witness for C6 (amended) at concrete failing inputs for each branch. -/
theorem c6_amended_failure_paths_witness :
    parse_indonesian_number "x9" = 0 ∧
    _format_number_for_csv "1.2,3y" = "0" ∧
    _format_number_for_csv "12,3.4x" = pyStr (pyStrip "12,3.4x".data) ∧
    _format_number_for_csv "1,2x" = pyStr (pyStrip "1,2x".data) ∧
    _format_number_for_csv "9y" = pyStr (pyStrip "9y".data) :=
  ⟨(c6_amended_failure_paths "x9").1 (by decide),
   (((c6_amended_failure_paths "1.2,3y").2 (by decide) (by decide) (by decide)).1
      (by decide) (by decide) (by decide) (by decide)),
   (((c6_amended_failure_paths "12,3.4x").2 (by decide) (by decide) (by decide)).2.1
      (by decide) (by decide) (by decide) (by decide)),
   (((c6_amended_failure_paths "1,2x").2 (by decide) (by decide) (by decide)).2.2.1
      (by decide) (by decide) (by decide)),
   (((c6_amended_failure_paths "9y").2 (by decide) (by decide) (by decide)).2.2.2
      (by decide) (by decide))⟩

/-- Claim C10: for every transaction list, tolerance and summary text, the
verification result's `status` is one of exactly `"passed"`, `"failed"`,
`"not_available"`, and its `passed` field is `true` iff `status` is
`"passed"`. -/
theorem c10_status_passed_invariant :
    ∀ (transactions : List Txn) (tolerance : Dec) (summary_text : String),
      ((verify_turnover transactions tolerance summary_text).status = "passed" ∨
       (verify_turnover transactions tolerance summary_text).status = "failed" ∨
       (verify_turnover transactions tolerance summary_text).status = "not_available") ∧
      ((verify_turnover transactions tolerance summary_text).passed = true ↔
       (verify_turnover transactions tolerance summary_text).status = "passed") := by
  intro transactions tolerance summary_text
  simp only [verify_turnover]
  split
  · exact ⟨Or.inr (Or.inr rfl), by simp⟩
  · split
    · exact ⟨Or.inl rfl, by simp⟩
    · exact ⟨Or.inr (Or.inl rfl), by simp⟩

/-- Every record `extractTxAux` emits is built by `mkTxn`, hence carries
exactly the six keys, in construction order. -/
theorem extractTxAux_keys (lines : List (List Char)) :
    ∀ (fuel i : Nat), ∀ p ∈ extractTxAux lines fuel i,
      p.2.map Prod.fst = ["date", "description", "user", "debit", "credit", "balance"] := by
  intro fuel
  induction fuel with
  | zero => intro i p hp; simp [extractTxAux] at hp
  | succ fuel ih =>
    intro i p hp
    simp only [extractTxAux] at hp
    split at hp
    · split at hp
      · exact ih _ _ hp
      · split at hp
        · split at hp
          · split at hp
            · simp at hp
            · split at hp
              · rcases List.mem_cons.mp hp with h | h
                · subst h; simp [mkTxn]
                · exact ih _ _ h
              · split at hp
                · rcases List.mem_cons.mp hp with h | h
                  · subst h; simp [mkTxn]
                  · exact ih _ _ h
                · rcases List.mem_cons.mp hp with h | h
                  · subst h; simp [mkTxn]
                  · exact ih _ _ h
          · exact ih _ _ hp
        · exact ih _ _ hp
    · simp at hp

/-- Claim C7: for every input string, `extract_transactions` terminates
(it is a total function of the input) and every returned record has exactly
the six keys `date`, `description`, `user`, `debit`, `credit`, `balance`,
all mapped to strings; truncated trailing records are omitted rather than
raising. -/
theorem c7_records_have_six_keys :
    ∀ text : String, ∀ r ∈ extract_transactions text,
      r.map Prod.fst = ["date", "description", "user", "debit", "credit", "balance"] := by
  intro text r hr
  simp only [extract_transactions] at hr
  rcases List.mem_map.mp hr with ⟨p, hp, hsnd⟩
  simp only [extractTxPairs] at hp
  rw [← hsnd]
  exact extractTxAux_keys _ _ _ p hp

/-- Witness for C7 at the concrete claim input. -/
theorem c7_records_have_six_keys_witness :
    c1Record ∈ extract_transactions c1Input ∧
    c1Record.map Prod.fst = ["date", "description", "user", "debit", "credit", "balance"] :=
  ⟨by decide, c7_records_have_six_keys c1Input c1Record (by decide)⟩

theorem skipBlank_ge (lines : List (List Char)) :
    ∀ fuel i, i ≤ skipBlank lines fuel i := by
  intro fuel
  induction fuel with
  | zero => intro i; exact Nat.le_refl i
  | succ fuel ih =>
    intro i
    rw [skipBlank]
    split
    · split
      · exact Nat.le_trans (Nat.le_succ i) (ih (i + 1))
      · exact Nat.le_refl i
    · exact Nat.le_refl i

theorem collectDesc_ge (lines : List (List Char)) :
    ∀ fuel i, i ≤ (collectDesc lines fuel i).1 := by
  intro fuel
  induction fuel with
  | zero => intro i; exact Nat.le_refl i
  | succ fuel ih =>
    intro i
    simp only [collectDesc]
    split
    · split
      · exact Nat.le_refl i
      · split
        · exact Nat.le_refl i
        · exact Nat.le_trans (Nat.le_succ i) (ih (i + 1))
    · exact Nat.le_refl i

/-- Anchor invariant of the instrumented scan: every emitted pair's index is
at least the scan position, lies inside the line array, points at a line
matching the date anchor, and the record's `date` field is that stripped
line. -/
theorem extractTxAux_anchors (lines : List (List Char)) :
    ∀ fuel i, ∀ p ∈ extractTxAux lines fuel i,
      i ≤ p.1 ∧ p.1 < lines.length ∧
      txnDateMatch (pyStrip (lines.getD p.1 [])) = true ∧
      p.2.lookup "date" = some (pyStr (pyStrip (lines.getD p.1 []))) := by
  intro fuel
  induction fuel with
  | zero => intro i p hp; simp [extractTxAux] at hp
  | succ fuel ih =>
    intro i p hp
    simp only [extractTxAux] at hp
    split at hp
    case isTrue hlen =>
      split at hp
      · rcases ih _ _ hp with ⟨h1, h2⟩
        exact ⟨Nat.le_trans (Nat.le_succ i) h1, h2⟩
      case isFalse hne =>
        split at hp
        case isTrue hdate =>
          split at hp
          · set dj1 := (collectDesc lines lines.length (i + 1)).1 with hdj1
            set j2 := skipBlank lines lines.length dj1 with hj2
            set p1 := skipBlank lines lines.length (j2 + 1) with hq1
            set p2 := skipBlank lines lines.length (p1 + 1) with hq2
            set p3 := skipBlank lines lines.length (p2 + 1) with hq3
            have g0 : i + 1 ≤ dj1 := collectDesc_ge lines lines.length (i + 1)
            have g1 : dj1 ≤ j2 := skipBlank_ge lines lines.length dj1
            have g2 : j2 + 1 ≤ p1 := skipBlank_ge lines lines.length (j2 + 1)
            have g3 : p1 + 1 ≤ p2 := skipBlank_ge lines lines.length (p1 + 1)
            have g4 : p2 + 1 ≤ p3 := skipBlank_ge lines lines.length (p2 + 1)
            split at hp
            · simp at hp
            · split at hp
              · rcases List.mem_cons.mp hp with h | h
                · subst h
                  exact ⟨Nat.le_refl i, hlen, hdate, by simp [mkTxn]⟩
                · rcases ih _ _ h with ⟨h1, h2⟩
                  exact ⟨by omega, h2⟩
              · split at hp
                · rcases List.mem_cons.mp hp with h | h
                  · subst h
                    exact ⟨Nat.le_refl i, hlen, hdate, by simp [mkTxn]⟩
                  · rcases ih _ _ h with ⟨h1, h2⟩
                    exact ⟨by omega, h2⟩
                · rcases List.mem_cons.mp hp with h | h
                  · subst h
                    exact ⟨Nat.le_refl i, hlen, hdate, by simp [mkTxn]⟩
                  · rcases ih _ _ h with ⟨h1, h2⟩
                    exact ⟨by omega, h2⟩
          · rcases ih _ _ hp with ⟨h1, h2⟩
            exact ⟨Nat.le_trans (Nat.le_succ i) h1, h2⟩
        case isFalse =>
          rcases ih _ _ hp with ⟨h1, h2⟩
          exact ⟨Nat.le_trans (Nat.le_succ i) h1, h2⟩
    · simp at hp

/-- The anchor indices of the instrumented scan are strictly increasing. -/
theorem extractTxAux_chain (lines : List (List Char)) :
    ∀ fuel i, List.Chain' (· < ·) ((extractTxAux lines fuel i).map Prod.fst) := by
  intro fuel
  induction fuel with
  | zero => intro i; simp [extractTxAux]
  | succ fuel ih =>
    intro i
    simp only [extractTxAux]
    split
    case isTrue hlen =>
      split
      · exact ih _
      · split
        · split
          · set dj1 := (collectDesc lines lines.length (i + 1)).1 with hdj1
            set j2 := skipBlank lines lines.length dj1 with hj2
            set p1 := skipBlank lines lines.length (j2 + 1) with hq1
            set p2 := skipBlank lines lines.length (p1 + 1) with hq2
            set p3 := skipBlank lines lines.length (p2 + 1) with hq3
            have g0 : i + 1 ≤ dj1 := collectDesc_ge lines lines.length (i + 1)
            have g1 : dj1 ≤ j2 := skipBlank_ge lines lines.length dj1
            have g2 : j2 + 1 ≤ p1 := skipBlank_ge lines lines.length (j2 + 1)
            have g3 : p1 + 1 ≤ p2 := skipBlank_ge lines lines.length (p1 + 1)
            have g4 : p2 + 1 ≤ p3 := skipBlank_ge lines lines.length (p2 + 1)
            have hnext : ∀ j, i + 1 ≤ j →
                List.Chain' (· < ·)
                  ((i :: (extractTxAux lines fuel j).map Prod.fst : List Nat)) := by
              intro j hij
              rw [List.chain'_cons']
              refine ⟨?_, ih j⟩
              intro y hy
              rw [List.head?_map] at hy
              rcases Option.map_eq_some'.mp hy with ⟨q, hq, rfl⟩
              have hqm : q ∈ extractTxAux lines fuel j := List.mem_of_mem_head? hq
              have := (extractTxAux_anchors lines fuel j q hqm).1
              omega
            split
            · simp
            · split
              · rw [List.map_cons]
                exact hnext _ (by omega)
              · split
                · rw [List.map_cons]
                  exact hnext _ (by omega)
                · rw [List.map_cons]
                  exact hnext _ (by omega)
          · exact ih _
        · exact ih _
    · simp

/-- Claim C9: `extract_transactions` preserves scan order: the records are
the second components of `extractTxPairs`, whose anchor indices (the
source-line index of each record's date line) are strictly increasing, and
each record's `date` field is the stripped date-anchor line at its index. -/
theorem c9_scan_order :
    ∀ text : String,
      extract_transactions text = (extractTxPairs text).map Prod.snd ∧
      List.Chain' (· < ·) ((extractTxPairs text).map Prod.fst) ∧
      ∀ p ∈ extractTxPairs text,
        p.1 < (splitNL text.data).length ∧
        txnDateMatch (pyStrip ((splitNL text.data).getD p.1 [])) = true ∧
        p.2.lookup "date" = some (pyStr (pyStrip ((splitNL text.data).getD p.1 []))) := by
  intro text
  refine ⟨rfl, ?_, ?_⟩
  · simpa only [extractTxPairs] using
      extractTxAux_chain (splitNL text.data) ((splitNL text.data).length + 1) 0
  · intro p hp
    simp only [extractTxPairs] at hp
    have h := extractTxAux_anchors (splitNL text.data) ((splitNL text.data).length + 1) 0 p hp
    exact h.2

/-- Witness for C9 at the concrete claim input. -/
theorem c9_scan_order_witness :
    (0, c1Record).1 < (splitNL c1Input.data).length ∧
    txnDateMatch (pyStrip ((splitNL c1Input.data).getD (0, c1Record).1 [])) = true ∧
    (0, c1Record).2.lookup "date" =
      some (pyStr (pyStrip ((splitNL c1Input.data).getD (0, c1Record).1 []))) :=
  (c9_scan_order c1Input).2.2 (0, c1Record) (by decide)

/-- Claim C2: for every transaction list, tolerance and summary text,
`verify_turnover` returns `"not_available"` exactly when neither total is
found; `"passed"` only if every available declared total is within the
tolerance of the corresponding recomputed sum; otherwise `"failed"` with a
message naming each mismatched side and its discrepancy.  In particular, a
declared debit total equal to the computed sum 300000.50 passes, and a
declared 305000.00 against computed 300000.50 fails with discrepancy
4999.50. -/
theorem c2_verify_turnover_outcomes :
    (∀ (transactions : List Txn) (tolerance : Dec) (summary_text : String),
      ((verify_turnover transactions tolerance summary_text).status = "not_available" ↔
        (extract_summary_totals summary_text).total_debit = none ∧
        (extract_summary_totals summary_text).total_credit = none) ∧
      ((verify_turnover transactions tolerance summary_text).status = "passed" →
        (∀ d, (extract_summary_totals summary_text).total_debit = some d →
          ((parse_indonesian_number d).sub (calculate_debit_sum transactions)).absD ≤
            tolerance) ∧
        (∀ c, (extract_summary_totals summary_text).total_credit = some c →
          ((parse_indonesian_number c).sub (calculate_credit_sum transactions)).absD ≤
            tolerance)) ∧
      ((verify_turnover transactions tolerance summary_text).status ≠ "not_available" →
        (verify_turnover transactions tolerance summary_text).status ≠ "passed" →
        (verify_turnover transactions tolerance summary_text).status = "failed" ∧
        (verify_turnover transactions tolerance summary_text).message =
          "Turnover mismatch - " ++ String.intercalate ", "
            ((if (extractedDec
                    (verify_turnover transactions tolerance summary_text).total_debit_extracted).isSome
                  && !(verify_turnover transactions tolerance summary_text).debit_match then
                ["debit discrepancy: " ++ pyStr (fmtComma2
                  (verify_turnover transactions tolerance summary_text).debit_discrepancy)]
              else []) ++
             (if (extractedDec
                    (verify_turnover transactions tolerance summary_text).total_credit_extracted).isSome
                  && !(verify_turnover transactions tolerance summary_text).credit_match then
                ["credit discrepancy: " ++ pyStr (fmtComma2
                  (verify_turnover transactions tolerance summary_text).credit_discrepancy)]
              else [])))) ∧
    (calculate_debit_sum c2Txns = 300000.50 ∧
      (verify_turnover c2Txns 0.01 c2PassText).status = "passed") ∧
    ((verify_turnover c2Txns 0.01 c2FailText).status = "failed" ∧
      (verify_turnover c2Txns 0.01 c2FailText).debit_discrepancy = 4999.50 ∧
      (verify_turnover c2Txns 0.01 c2FailText).message =
        "Turnover mismatch - debit discrepancy: 4,999.50") := by
  refine ⟨?_, by decide, by decide⟩
  intro transactions tolerance summary_text
  simp only [verify_turnover]
  set st := extract_summary_totals summary_text with hst
  by_cases hna : st.total_debit = none ∧ st.total_credit = none
  · rw [if_pos hna]
    refine ⟨⟨fun _ => hna, fun _ => rfl⟩, ?_, ?_⟩
    · intro habs
      simp at habs
    · intro habs
      exact absurd rfl habs
  · rw [if_neg hna]
    split
    case _ hmatch =>
      rw [Bool.and_eq_true] at hmatch
      rcases hmatch with ⟨hdm, hcm⟩
      refine ⟨?_, ?_, ?_⟩
      · constructor
        · intro habs
          simp at habs
        · intro h
          exact absurd h hna
      · intro _
        constructor
        · intro d hd
          rw [hd] at hdm
          simp only [extractedDec] at hdm
          by_cases hde : d = ""
          · rw [if_pos hde] at hdm
            simp at hdm
          · rw [if_neg hde] at hdm
            simpa using hdm
        · intro c hc
          rw [hc] at hcm
          simp only [extractedDec] at hcm
          by_cases hce : c = ""
          · rw [if_pos hce] at hcm
            simp at hcm
          · rw [if_neg hce] at hcm
            simpa using hcm
      · intro _ habs
        exact absurd rfl habs
    case _ hmatch =>
      refine ⟨?_, ?_, ?_⟩
      · constructor
        · intro habs
          simp at habs
        · intro h
          exact absurd h hna
      · intro habs
        simp at habs
      · intro _ _
        exact ⟨rfl, rfl⟩

/-- Witness for C2 at the concrete failing scenario. -/
theorem c2_verify_turnover_outcomes_witness :
    (verify_turnover c2Txns 0.01 c2FailText).status = "failed" ∧
    (verify_turnover c2Txns 0.01 c2FailText).message =
      "Turnover mismatch - " ++ String.intercalate ", "
        ((if (extractedDec
                (verify_turnover c2Txns 0.01 c2FailText).total_debit_extracted).isSome
              && !(verify_turnover c2Txns 0.01 c2FailText).debit_match then
            ["debit discrepancy: " ++ pyStr (fmtComma2
              (verify_turnover c2Txns 0.01 c2FailText).debit_discrepancy)]
          else []) ++
         (if (extractedDec
                (verify_turnover c2Txns 0.01 c2FailText).total_credit_extracted).isSome
              && !(verify_turnover c2Txns 0.01 c2FailText).credit_match then
            ["credit discrepancy: " ++ pyStr (fmtComma2
              (verify_turnover c2Txns 0.01 c2FailText).credit_discrepancy)]
          else [])) :=
  (c2_verify_turnover_outcomes.1 c2Txns 0.01 c2FailText).2.2 (by decide) (by decide)

/-- Whatever `wsStarNLAux` returns was produced by its continuation. -/
theorem wsStarNLAux_some {α : Type} (run rest : List Char) (k : List Char → Option α) (g : α) :
    ∀ j, wsStarNLAux run rest k j = some g → ∃ s', k s' = some g := by
  intro j
  induction j with
  | zero =>
    intro h
    exact Option.noConfusion h
  | succ j ih =>
    intro h
    simp only [wsStarNLAux] at h
    split at h
    · cases hk : k (run.drop (j + 1) ++ rest) with
      | some r =>
        rw [hk] at h
        exact ⟨run.drop (j + 1) ++ rest, hk.trans h⟩
      | none =>
        rw [hk] at h
        exact ih h
    · exact ih h

/-- Whatever `wsStarNL` returns was produced by its continuation. -/
theorem wsStarNL_some {α : Type} (s : List Char) (k : List Char → Option α) (g : α) :
    wsStarNL s k = some g → ∃ s', k s' = some g := by
  intro h
  simp only [wsStarNL] at h
  exact wsStarNLAux_some _ _ k g _ h

/-- Whatever `optNamaProduk` returns was produced by its continuation. -/
theorem optNamaProduk_some {α : Type} (s : List Char) (k : List Char → Option α) (g : α) :
    optNamaProduk s k = some g → ∃ s', k s' = some g := by
  intro h
  simp only [optNamaProduk] at h
  split at h
  · rename_i r heq
    split at heq
    · rename_i r2 hm
      obtain ⟨s', hs'⟩ := wsStarNL_some r2 k r heq
      exact ⟨s', hs'.trans h⟩
    · exact Option.noConfusion heq
  · exact ⟨s, h⟩

/-- `re.search` succeeds only if the anchored matcher succeeds somewhere. -/
theorem searchWith_some {α : Type} (tm : List Char → Option α) (g : α) :
    ∀ s, searchWith tm s = some g → ∃ s', tm s' = some g := by
  intro s
  induction s with
  | nil =>
    intro h
    exact ⟨[], h⟩
  | cons c cs ih =>
    intro h
    simp only [searchWith] at h
    cases htm : tm (c :: cs) with
    | some r =>
      rw [htm] at h
      exact ⟨c :: cs, htm.trans h⟩
    | none =>
      rw [htm] at h
      exact ih h

/-- Characters accumulated by the starred part of the product-name group are
alphanumeric or whitespace. -/
theorem prodStar_mem :
    ∀ (fuel : Nat) (acc s : List Char) (c : Char), c ∈ (prodStar fuel acc s).1 →
      c ∈ acc ∨ (isAlnumC c || isWsC c) = true := by
  intro fuel
  induction fuel with
  | zero =>
    intro acc s c hc
    exact Or.inl hc
  | succ fuel ih =>
    intro acc s c hc
    simp only [prodStar] at hc
    split at hc
    · exact Or.inl hc
    · split at hc
      · exact Or.inl hc
      · rcases ih _ _ c hc with hin | hcls
        · rcases List.mem_append.mp hin with hin2 | hw
          · rcases List.mem_append.mp hin2 with ha | hws
            · exact Or.inl ha
            · have := List.mem_takeWhile_imp hws
              exact Or.inr (by simp [this])
          · have := List.mem_takeWhile_imp hw
            exact Or.inr (by simp [this])
        · exact Or.inr hcls

/-- Every character of a product-name group capture is alphanumeric,
whitespace, or a period. -/
theorem prodGroup_mem (s g : List Char) :
    prodGroup s = some g → ∀ c ∈ g, (isAlnumC c || isWsC c || decide (c = '.')) = true := by
  intro h c hc
  simp only [prodGroup] at h
  split at h
  · exact Option.noConfusion h
  · have main : ∀ d, d ∈ s.takeWhile isAlnumC ++
        (prodStar (s.length + 1) [] (s.dropWhile isAlnumC)).1 →
        (isAlnumC d || isWsC d || decide (d = '.')) = true := by
      intro d hd
      rcases List.mem_append.mp hd with h1 | h2
      · have := List.mem_takeWhile_imp h1
        simp [this]
      · rcases prodStar_mem _ _ _ d h2 with habs | hcls
        · exact absurd habs (List.not_mem_nil d)
        · rw [hcls]
          rfl
    split at h
    · rename_i rr hst
      split at h
      · cases h
        exact main c hc
      · cases h
        rcases List.mem_append.mp hc with h1 | h3
        · exact main c h1
        · rcases List.mem_cons.mp h3 with hdot | h4
          · subst hdot
            decide
          · have := List.mem_takeWhile_imp h4
            simp [isAlnumC, this]
    · cases h
      exact main c hc

/-- Every character of a successful `PRODUCT_NAME_PATTERN` capture is
alphanumeric, whitespace, or a period. -/
theorem tryProdNameAt_mem (s g : List Char) :
    tryProdNameAt s = some g → ∀ c ∈ g, (isAlnumC c || isWsC c || decide (c = '.')) = true := by
  intro h
  simp only [tryProdNameAt] at h
  obtain ⟨s', h'⟩ := optNamaProduk_some s _ g h
  split at h'
  · exact Option.noConfusion h'
  · exact prodGroup_mem _ g h'

/-- Stripping preserves membership. -/
theorem mem_pyStrip (c : Char) (l : List Char) : c ∈ pyStrip l → c ∈ l := by
  intro h
  rw [pyStrip] at h
  have h1 := List.mem_reverse.mp h
  have h2 := (List.dropWhile_sublist _).mem h1
  have h3 := List.mem_reverse.mp h2
  exact (List.dropWhile_sublist _).mem h3

/-- A string without a dash cannot end in `-IDR`, so the suffix strip is the
identity on it. -/
theorem stripIDRSuffix_of_no_dash (p : List Char) (h : '-' ∉ p) : stripIDRSuffix p = p := by
  rw [stripIDRSuffix]
  rw [if_neg]
  intro habs
  apply h
  have hm : '-' ∈ p.reverse.take 4 := by
    rw [habs]
    decide
  exact List.mem_reverse.mp ((List.take_sublist _ _).mem hm)

/-- Claim C8 (counterexample): `extract_metadata` does not apply the label
filter to `business_unit`: on `"Business Unit\n:\nTeller"` the captured
value `"Teller"` is one of the label indicators yet is returned as-is. -/
theorem c8_business_unit_label_leak :
    (extract_metadata "Business Unit\n:\nTeller").business_unit = "Teller" ∧
    is_likely_label "Teller" = true ∧
    ("Teller" : String) ≠ "" := by
  decide

/-- Claim C8 (amended): the label plausibility filter guards exactly the
`account_no`, `product_name` and `unit_address` fields: for every input
those three returned values are never label indicators (the `product_name`
case also uses that the captured group's alphabet excludes `-`, so the
`-IDR` suffix strip never applies); the remaining fields, `business_unit`
among them, are returned unfiltered. -/
theorem c8_amended_label_filter_scope :
    ∀ (text : String),
      is_likely_label (extract_metadata text).account_no = false ∧
      is_likely_label (extract_metadata text).product_name = false ∧
      is_likely_label (extract_metadata text).unit_address = false := by
  intro text
  refine ⟨?_, ?_, ?_⟩
  · cases hE : searchWith tryAccountNoAt text.data with
    | none =>
      simp only [extract_metadata, hE]
      decide
    | some g =>
      simp only [extract_metadata, hE]
      split
      · decide
      · rename_i hng
        simpa using hng
  · cases hE : searchWith tryProdNameAt text.data with
    | none =>
      simp only [extract_metadata, hE]
      decide
    | some g =>
      simp only [extract_metadata, hE]
      split
      · decide
      · rename_i hng
        obtain ⟨s', h'⟩ := searchWith_some tryProdNameAt g text.data hE
        have hcls := tryProdNameAt_mem s' g h'
        have hdash : '-' ∉ pyStrip g := by
          intro hm
          have hbad := hcls '-' (mem_pyStrip '-' g hm)
          exact absurd hbad (by decide)
        have hdata : (pyStr (pyStrip g)).data = pyStrip g := rfl
        rw [hdata, stripIDRSuffix_of_no_dash _ hdash]
        simpa using hng
  · cases hE : searchWith tryUnitAddrAt text.data with
    | none =>
      simp only [extract_metadata, hE]
      decide
    | some g =>
      simp only [extract_metadata, hE]
      split
      · rename_i hok
        simpa using hok
      · decide

/-! ### Toolkit for symbolic reasoning about `subst` pipelines -/

theorem digit_ne (c x : Char) (h : isDigitC c = true) (hx : isDigitC x = false) : c ≠ x := by
  intro he
  rw [he, hx] at h
  exact Bool.noConfusion h

theorem digit_le_nine (c : Char) (h : isDigitC c = true) : c ≤ '9' := by
  simp only [isDigitC, Bool.and_eq_true, decide_eq_true_eq] at h
  exact h.2

theorem digit_not_ws (c : Char) (h : isDigitC c = true) : isWsC c = false := by
  simp only [isWsC, Bool.or_eq_false_iff, decide_eq_false_iff_not]
  exact ⟨⟨⟨⟨⟨digit_ne c ' ' h (by decide), digit_ne c '\t' h (by decide)⟩,
    digit_ne c '\n' h (by decide)⟩, digit_ne c '\r' h (by decide)⟩,
    digit_ne c '\x0b' h (by decide)⟩, digit_ne c '\x0c' h (by decide)⟩

theorem digit_not_alpha (c : Char) (h : isDigitC c = true) : isAlphaC c = false := by
  have h9 := digit_le_nine c h
  have ha : decide ('a' ≤ c) = false := by
    simp only [decide_eq_false_iff_not]
    intro hle
    exact absurd (le_trans hle h9) (by decide)
  have hA : decide ('A' ≤ c) = false := by
    simp only [decide_eq_false_iff_not]
    intro hle
    exact absurd (le_trans hle h9) (by decide)
  simp [isAlphaC, ha, hA]

theorem digit_toLower (c : Char) (h : isDigitC c = true) : toLowerC c = c := by
  rw [toLowerC, if_neg]
  intro habs
  rw [Bool.and_eq_true] at habs
  have hA := of_decide_eq_true habs.1
  exact absurd (le_trans hA (digit_le_nine c h)) (by decide)

theorem digit_isDC (c : Char) (h : isDigitC c = true) : isDC c = true := by
  simp [isDC, h]

theorem digit_isNumTok (c : Char) (h : isDigitC c = true) : isNumTok c = true := by
  simp [isNumTok, h]

theorem substAux_nil (tm : List Char → Option (List Char × List Char)) (hnil : tm [] = none) :
    ∀ fuel, substAux tm fuel [] = [] := by
  intro fuel
  cases fuel with
  | zero => rfl
  | succ f => simp only [substAux, hnil]

theorem substAux_id_of_suffix (tm : List Char → Option (List Char × List Char))
    (s : List Char) (h : ∀ t, t <:+ s → tm t = none) :
    ∀ fuel t, t <:+ s → substAux tm fuel t = t := by
  intro fuel
  induction fuel with
  | zero =>
    intro t _
    rfl
  | succ f ih =>
    intro t ht
    simp only [substAux, h t ht]
    cases t with
    | nil => rfl
    | cons c cs =>
      show c :: substAux tm f cs = c :: cs
      exact congrArg (c :: ·) (ih cs ((List.suffix_cons c cs).trans ht))

theorem subst_id_of_suffix (tm : List Char → Option (List Char × List Char))
    (s : List Char) (h : ∀ t, t <:+ s → tm t = none) : subst tm s = s :=
  substAux_id_of_suffix tm s h _ s (List.suffix_refl s)

theorem subst_walk_append (tm : List Char → Option (List Char × List Char))
    (P Q : List Char) (h : ∀ t, t ≠ [] → t <:+ P → tm (t ++ Q) = none) :
    subst tm (P ++ Q) = P ++ subst tm Q := by
  induction P with
  | nil => simp
  | cons c P' ih =>
    have hc : tm (c :: (P' ++ Q)) = none := by
      have := h (c :: P') (by simp) (List.suffix_refl _)
      simpa using this
    have e1 : subst tm ((c :: P') ++ Q) = c :: subst tm (P' ++ Q) := by
      simp only [subst, List.cons_append, List.length_cons, substAux, hc]
      rfl
    rw [e1, ih (fun t ht hts => h t ht (hts.trans (List.suffix_cons c P')))]
    simp

theorem subst_match_then_id (tm : List Char → Option (List Char × List Char))
    (s rep rest : List Char) (hm : tm s = some (rep, rest))
    (hrest : ∀ t, t <:+ rest → tm t = none) : subst tm s = rep ++ rest := by
  simp only [subst, substAux, hm]
  exact congrArg (rep ++ ·)
    (substAux_id_of_suffix tm rest hrest s.length rest (List.suffix_refl rest))

theorem suffix_append_cases (t X Y : List Char) (h : t <:+ X ++ Y) :
    t <:+ Y ∨ ∃ X', X' <:+ X ∧ X' ≠ [] ∧ t = X' ++ Y := by
  obtain ⟨pre, hp⟩ := h
  rcases List.append_eq_append_iff.mp hp with ⟨a', ha1, ha2⟩ | ⟨c', hc1, hc2⟩
  · cases a' with
    | nil =>
      left
      rw [ha2]
      simp
    | cons x xs =>
      right
      exact ⟨x :: xs, ⟨pre, ha1.symm⟩, by simp, ha2⟩
  · left
    exact ⟨c', hc2.symm⟩

theorem suffix_head_mem (c : Char) (cs s : List Char) (h : (c :: cs) <:+ s) : c ∈ s := by
  obtain ⟨pre, hp⟩ := h
  rw [← hp]
  simp

theorem takeWhile_append_all (p : Char → Bool) (X Y : List Char)
    (h : ∀ c ∈ X, p c = true) : (X ++ Y).takeWhile p = X ++ Y.takeWhile p := by
  induction X with
  | nil => simp
  | cons c X' ih =>
    simp only [List.cons_append, List.takeWhile_cons, h c (List.mem_cons_self c X'), if_true]
    exact congrArg (c :: ·) (ih (fun d hd => h d (List.mem_cons_of_mem c hd)))

theorem dropWhile_append_all (p : Char → Bool) (X Y : List Char)
    (h : ∀ c ∈ X, p c = true) : (X ++ Y).dropWhile p = Y.dropWhile p := by
  induction X with
  | nil => simp
  | cons c X' ih =>
    simp only [List.cons_append, List.dropWhile_cons, h c (List.mem_cons_self c X'), if_true]
    exact ih (fun d hd => h d (List.mem_cons_of_mem c hd))

theorem tryDateTime_none (t : List Char) (h : ':' ∉ t) : tryDateTime t = none := by
  simp only [tryDateTime]
  split
  · exfalso
    apply h
    simp
  · rfl

theorem tryAmtSmash_head (c : Char) (cs : List Char) (h : c ≠ '.') :
    tryAmtSmash (c :: cs) = none := by
  simp only [tryAmtSmash]
  split
  · rename_i a b rest heq
    injection heq with h1 _
    exact absurd h1 h
  · rfl

theorem tryAmtSmash_run (a b : Char) (r : List Char) (hr : r.takeWhile isDC = []) :
    tryAmtSmash ('.' :: a :: b :: r) = none := by
  simp [tryAmtSmash, hr]

theorem tryUserAmtK_none_short (run rest : List Char) (h : run.length < 6) :
    ∀ k, tryUserAmtK run rest k = none := by
  intro k
  induction k with
  | zero => rfl
  | succ k ih =>
    simp only [tryUserAmtK]
    split
    · rfl
    · rw [if_neg (by omega)]
      exact ih

theorem tryUserAmtK_none_six (run rest : List Char) (hlen : run.length = 6)
    (hrest : rest.takeWhile isDC = []) : ∀ k, tryUserAmtK run rest k = none := by
  intro k
  induction k with
  | zero => rfl
  | succ k ih =>
    simp only [tryUserAmtK]
    split
    · rfl
    · rename_i hk
      by_cases hle : k + 1 ≤ run.length
      · have h6 : k + 1 = 6 := by omega
        rw [if_pos hle, h6, ← hlen, List.drop_length]
        simp only [List.nil_append, hrest]
        exact ih
      · rw [if_neg hle]
        exact ih

theorem tryUserAmt_none_short (s : List Char) (h : (s.takeWhile isDigitC).length < 6) :
    tryUserAmt s = none :=
  tryUserAmtK_none_short _ _ h 8

theorem tryUserAmt_none_six (s : List Char) (h : (s.takeWhile isDigitC).length = 6)
    (h2 : ((s.dropWhile isDigitC).takeWhile isDC) = []) : tryUserAmt s = none :=
  tryUserAmtK_none_six _ _ h h2 8

theorem tryWsUserK_none_short (run rest : List Char) (h : run.length < 6) :
    ∀ k, tryWsUserK run rest k = none := by
  intro k
  induction k with
  | zero => rfl
  | succ k ih =>
    simp only [tryWsUserK]
    split
    · rfl
    · rw [if_neg (by omega)]
      exact ih

theorem tryWsUser_head (c : Char) (cs : List Char) (h : isWsC c = false) :
    tryWsUser (c :: cs) = none := by
  simp [tryWsUser, List.takeWhile_cons, h]

theorem tryDescUser_head (c : Char) (cs : List Char) (h : isAlphaC c = false) :
    tryDescUser (c :: cs) = none := by
  simp [tryDescUser, h]

theorem tryDescAmt_head (c : Char) (cs : List Char) (h : isAlphaC c = false) :
    tryDescAmt (c :: cs) = none := by
  simp [tryDescAmt, h]

theorem tryDescAmtSpace_head (c : Char) (cs : List Char) (h : isAlphaC c = false) :
    tryDescAmtSpace (c :: cs) = none := by
  simp [tryDescAmtSpace, h]

theorem matchCI_head_ne (a : Char) (ls : List Char) (c : Char) (cs : List Char)
    (h : toLowerC a ≠ toLowerC c) : matchCI (a :: ls) (c :: cs) = none := by
  simp only [matchCI, if_neg h]

theorem tryRekening_head (c : Char) (cs : List Char) (h : toLowerC c ≠ 'n') :
    tryRekening (c :: cs) = none := by
  have hne : toLowerC 'N' ≠ toLowerC c := by
    intro he
    apply h
    rw [← he]
    decide
  have hm : matchCIS "No" (c :: cs) = none := matchCI_head_ne 'N' ['o'] c cs hne
  simp only [tryRekening, hm]

theorem tryNamaProduk_head (c : Char) (cs : List Char) (h : toLowerC c ≠ 'n') :
    tryNamaProduk (c :: cs) = none := by
  have hne : toLowerC 'N' ≠ toLowerC c := by
    intro he
    apply h
    rw [← he]
    decide
  have hm : matchCIS "Nama" (c :: cs) = none :=
    matchCI_head_ne 'N' ['a', 'm', 'a'] c cs hne
  simp only [tryNamaProduk, hm]

theorem tryValuta_head (c : Char) (cs : List Char) (h : toLowerC c ≠ 'v') :
    tryValuta (c :: cs) = none := by
  have hne : toLowerC 'V' ≠ toLowerC c := by
    intro he
    apply h
    rw [← he]
    decide
  have hm : matchCIS "Valuta" (c :: cs) = none :=
    matchCI_head_ne 'V' ['a', 'l', 'u', 't', 'a'] c cs hne
  simp only [tryValuta, hm]

theorem suffix_amount_head (A REST : List Char) (b1 b2 : Char) :
    ∀ t, t <:+ A ++ '.' :: b1 :: b2 :: '\n' :: REST →
      (∃ A', A' <:+ A ∧ A' ≠ [] ∧ t = A' ++ '.' :: b1 :: b2 :: '\n' :: REST) ∨
      t = '.' :: b1 :: b2 :: '\n' :: REST ∨
      t = b1 :: b2 :: '\n' :: REST ∨
      t = b2 :: '\n' :: REST ∨
      t = '\n' :: REST ∨
      t <:+ REST := by
  intro t ht
  rcases suffix_append_cases t A ('.' :: b1 :: b2 :: '\n' :: REST) ht with h1 | ⟨A', hA', hne, rfl⟩
  · rcases List.suffix_cons_iff.mp h1 with rfl | h2
    · exact Or.inr (Or.inl rfl)
    rcases List.suffix_cons_iff.mp h2 with rfl | h3
    · exact Or.inr (Or.inr (Or.inl rfl))
    rcases List.suffix_cons_iff.mp h3 with rfl | h4
    · exact Or.inr (Or.inr (Or.inr (Or.inl rfl)))
    rcases List.suffix_cons_iff.mp h4 with rfl | h5
    · exact Or.inr (Or.inr (Or.inr (Or.inr (Or.inl rfl))))
    exact Or.inr (Or.inr (Or.inr (Or.inr (Or.inr h5))))
  · exact Or.inl ⟨A', hA', hne, rfl⟩

theorem suffix_amount_tail (C REST : List Char) (d1 d2 d3 : Char) :
    ∀ t, t <:+ C ++ ',' :: d1 :: d2 :: d3 :: REST →
      (∃ C', C' <:+ C ∧ C' ≠ [] ∧ t = C' ++ ',' :: d1 :: d2 :: d3 :: REST) ∨
      t = ',' :: d1 :: d2 :: d3 :: REST ∨
      t = d1 :: d2 :: d3 :: REST ∨
      t = d2 :: d3 :: REST ∨
      t = d3 :: REST ∨
      t <:+ REST := by
  intro t ht
  rcases suffix_append_cases t C (',' :: d1 :: d2 :: d3 :: REST) ht with h1 | ⟨C', hC', hne, rfl⟩
  · rcases List.suffix_cons_iff.mp h1 with rfl | h2
    · exact Or.inr (Or.inl rfl)
    rcases List.suffix_cons_iff.mp h2 with rfl | h3
    · exact Or.inr (Or.inr (Or.inl rfl))
    rcases List.suffix_cons_iff.mp h3 with rfl | h4
    · exact Or.inr (Or.inr (Or.inr (Or.inl rfl)))
    rcases List.suffix_cons_iff.mp h4 with rfl | h5
    · exact Or.inr (Or.inr (Or.inr (Or.inr (Or.inl rfl))))
    exact Or.inr (Or.inr (Or.inr (Or.inr (Or.inr h5))))
  · exact Or.inl ⟨C', hC', hne, rfl⟩

theorem suffix_dot_tail (REST : List Char) (x y : Char) :
    ∀ t, t <:+ '.' :: x :: y :: REST →
      t = '.' :: x :: y :: REST ∨ t = x :: y :: REST ∨ t = y :: REST ∨ t <:+ REST := by
  intro t ht
  rcases List.suffix_cons_iff.mp ht with rfl | h2
  · exact Or.inl rfl
  rcases List.suffix_cons_iff.mp h2 with rfl | h3
  · exact Or.inr (Or.inl rfl)
  rcases List.suffix_cons_iff.mp h3 with rfl | h4
  · exact Or.inr (Or.inr (Or.inl rfl))
  exact Or.inr (Or.inr (Or.inr h4))

theorem classNT_not_alpha (c : Char) (h : (isNumTok c || decide (c = '\n')) = true) :
    isAlphaC c = false := by
  simp only [isNumTok, Bool.or_eq_true, decide_eq_true_eq] at h
  rcases h with ((hd | rfl) | rfl) | rfl
  · exact digit_not_alpha c hd
  · decide
  · decide
  · decide

theorem classNT_toLower_n (c : Char) (h : (isNumTok c || decide (c = '\n')) = true) :
    toLowerC c ≠ 'n' := by
  simp only [isNumTok, Bool.or_eq_true, decide_eq_true_eq] at h
  rcases h with ((hd | rfl) | rfl) | rfl
  · rw [digit_toLower c hd]
    exact digit_ne c 'n' hd (by decide)
  · decide
  · decide
  · decide

theorem classNT_toLower_v (c : Char) (h : (isNumTok c || decide (c = '\n')) = true) :
    toLowerC c ≠ 'v' := by
  simp only [isNumTok, Bool.or_eq_true, decide_eq_true_eq] at h
  rcases h with ((hd | rfl) | rfl) | rfl
  · rw [digit_toLower c hd]
    exact digit_ne c 'v' hd (by decide)
  · decide
  · decide
  · decide

theorem subst_id_head_class (tm : List Char → Option (List Char × List Char))
    (s : List Char) (P : Char → Bool) (hs : ∀ c ∈ s, P c = true)
    (hnil : tm [] = none) (hhead : ∀ c cs, P c = true → tm (c :: cs) = none) :
    subst tm s = s := by
  apply subst_id_of_suffix
  intro t ht
  cases t with
  | nil => exact hnil
  | cons c cs => exact hhead c cs (hs c (suffix_head_mem c cs s ht))

theorem mem_numtok_amount2 (A C : List Char) (b1 b2 d1 d2 d3 e1 e2 : Char)
    (hA : ∀ c ∈ A, isDigitC c = true) (hC : ∀ c ∈ C, isDigitC c = true)
    (hb1 : isDigitC b1 = true) (hb2 : isDigitC b2 = true)
    (hd1 : isDigitC d1 = true) (hd2 : isDigitC d2 = true) (hd3 : isDigitC d3 = true)
    (he1 : isDigitC e1 = true) (he2 : isDigitC e2 = true) :
    ∀ c ∈ A ++ '.' :: b1 :: b2 :: (C ++ ',' :: d1 :: d2 :: d3 :: '.' :: e1 :: e2 :: []),
      isNumTok c = true := by
  intro c hc
  rcases List.mem_append.mp hc with h1 | h2
  · exact digit_isNumTok c (hA c h1)
  rcases List.mem_cons.mp h2 with rfl | h2
  · decide
  rcases List.mem_cons.mp h2 with rfl | h2
  · exact digit_isNumTok _ hb1
  rcases List.mem_cons.mp h2 with rfl | h2
  · exact digit_isNumTok _ hb2
  rcases List.mem_append.mp h2 with h3 | h2
  · exact digit_isNumTok c (hC c h3)
  rcases List.mem_cons.mp h2 with rfl | h2
  · decide
  rcases List.mem_cons.mp h2 with rfl | h2
  · exact digit_isNumTok _ hd1
  rcases List.mem_cons.mp h2 with rfl | h2
  · exact digit_isNumTok _ hd2
  rcases List.mem_cons.mp h2 with rfl | h2
  · exact digit_isNumTok _ hd3
  rcases List.mem_cons.mp h2 with rfl | h2
  · decide
  rcases List.mem_cons.mp h2 with rfl | h2
  · exact digit_isNumTok _ he1
  rcases List.mem_cons.mp h2 with rfl | h2
  · exact digit_isNumTok _ he2
  exact absurd h2 (List.not_mem_nil c)

theorem mem_classNT_t2 (A C : List Char) (b1 b2 d1 d2 d3 e1 e2 : Char)
    (hA : ∀ c ∈ A, isDigitC c = true) (hC : ∀ c ∈ C, isDigitC c = true)
    (hb1 : isDigitC b1 = true) (hb2 : isDigitC b2 = true)
    (hd1 : isDigitC d1 = true) (hd2 : isDigitC d2 = true) (hd3 : isDigitC d3 = true)
    (he1 : isDigitC e1 = true) (he2 : isDigitC e2 = true) :
    ∀ c ∈ A ++ '.' :: b1 :: b2 :: '\n' :: (C ++ ',' :: d1 :: d2 :: d3 :: '.' :: e1 :: e2 :: []),
      (isNumTok c || decide (c = '\n')) = true := by
  intro c hc
  have dig : ∀ x : Char, isDigitC x = true → (isNumTok x || decide (x = '\n')) = true := by
    intro x hx
    rw [digit_isNumTok x hx]
    rfl
  rcases List.mem_append.mp hc with h1 | h2
  · exact dig c (hA c h1)
  rcases List.mem_cons.mp h2 with rfl | h2
  · decide
  rcases List.mem_cons.mp h2 with rfl | h2
  · exact dig _ hb1
  rcases List.mem_cons.mp h2 with rfl | h2
  · exact dig _ hb2
  rcases List.mem_cons.mp h2 with rfl | h2
  · decide
  rcases List.mem_append.mp h2 with h3 | h2
  · exact dig c (hC c h3)
  rcases List.mem_cons.mp h2 with rfl | h2
  · decide
  rcases List.mem_cons.mp h2 with rfl | h2
  · exact dig _ hd1
  rcases List.mem_cons.mp h2 with rfl | h2
  · exact dig _ hd2
  rcases List.mem_cons.mp h2 with rfl | h2
  · exact dig _ hd3
  rcases List.mem_cons.mp h2 with rfl | h2
  · decide
  rcases List.mem_cons.mp h2 with rfl | h2
  · exact dig _ he1
  rcases List.mem_cons.mp h2 with rfl | h2
  · exact dig _ he2
  exact absurd h2 (List.not_mem_nil c)

theorem tryAmtSmash_nil : tryAmtSmash [] = none := rfl

theorem tryDescUser_nil : tryDescUser [] = none := rfl

theorem tryDescAmt_nil : tryDescAmt [] = none := rfl

theorem tryDescAmtSpace_nil : tryDescAmtSpace [] = none := rfl

theorem tryWsUser_nil : tryWsUser [] = none := rfl

theorem tryRekening_nil : tryRekening [] = none := rfl

theorem tryNamaProduk_nil : tryNamaProduk [] = none := rfl

theorem tryValuta_nil : tryValuta [] = none := rfl

theorem amtSmash_match (C REST : List Char) (b1 b2 d1 d2 d3 e1 e2 : Char)
    (hC : ∀ c ∈ C, isDigitC c = true) (hCne : C ≠ [])
    (hb1 : isDigitC b1 = true) (hb2 : isDigitC b2 = true)
    (hd1 : isDigitC d1 = true) (hd2 : isDigitC d2 = true) (hd3 : isDigitC d3 = true)
    (he1 : isDigitC e1 = true) (he2 : isDigitC e2 = true) :
    tryAmtSmash ('.' :: b1 :: b2 :: (C ++ ',' :: d1 :: d2 :: d3 :: '.' :: e1 :: e2 :: REST)) =
      some ('.' :: b1 :: b2 :: '\n' ::
        ((C ++ ',' :: d1 :: d2 :: d3 :: []) ++ '.' :: e1 :: e2 :: []), REST) := by
  have k1 : isDC ',' = true := by decide
  have k2 : isDC '.' = false := by decide
  have hrun : (C ++ ',' :: d1 :: d2 :: d3 :: '.' :: e1 :: e2 :: REST).takeWhile isDC
      = C ++ ',' :: d1 :: d2 :: d3 :: [] := by
    rw [takeWhile_append_all isDC C _ (fun c hc => digit_isDC c (hC c hc))]
    simp [List.takeWhile_cons, k1, k2, digit_isDC d1 hd1, digit_isDC d2 hd2, digit_isDC d3 hd3]
  have hdrop : (C ++ ',' :: d1 :: d2 :: d3 :: '.' :: e1 :: e2 :: REST).dropWhile isDC
      = '.' :: e1 :: e2 :: REST := by
    rw [dropWhile_append_all isDC C _ (fun c hc => digit_isDC c (hC c hc))]
    simp [List.dropWhile_cons, k1, k2, digit_isDC d1 hd1, digit_isDC d2 hd2, digit_isDC d3 hd3]
  have hne2 : C ++ ',' :: d1 :: d2 :: d3 :: [] ≠ [] := by
    cases C with
    | nil => simp
    | cons c0 C0 => simp
  simp only [tryAmtSmash, hb1, hb2, hrun, hdrop, hne2, he1, he2]
  simp

theorem amtSmash_tail_suffix_none (C : List Char) (d1 d2 d3 e1 e2 : Char)
    (hC : ∀ c ∈ C, isDigitC c = true)
    (hd1 : isDigitC d1 = true) (hd2 : isDigitC d2 = true) (hd3 : isDigitC d3 = true)
    (he1 : isDigitC e1 = true) (he2 : isDigitC e2 = true) :
    ∀ t, t <:+ C ++ ',' :: d1 :: d2 :: d3 :: '.' :: e1 :: e2 :: [] →
      tryAmtSmash t = none := by
  intro t ht
  rcases suffix_amount_tail C ('.' :: e1 :: e2 :: []) d1 d2 d3 t ht with
    ⟨C', hsuf, hne, rfl⟩ | rfl | rfl | rfl | rfl | h
  · cases C' with
    | nil => exact absurd rfl hne
    | cons c0 C0 =>
      exact tryAmtSmash_head c0 _
        (digit_ne c0 '.' (hC c0 (hsuf.subset (List.mem_cons_self c0 C0))) (by decide))
  · exact tryAmtSmash_head ',' _ (by decide)
  · exact tryAmtSmash_head d1 _ (digit_ne d1 '.' hd1 (by decide))
  · exact tryAmtSmash_head d2 _ (digit_ne d2 '.' hd2 (by decide))
  · exact tryAmtSmash_head d3 _ (digit_ne d3 '.' hd3 (by decide))
  · rcases suffix_dot_tail [] e1 e2 t h with rfl | rfl | rfl | h4
    · exact tryAmtSmash_run e1 e2 [] rfl
    · exact tryAmtSmash_head e1 _ (digit_ne e1 '.' he1 (by decide))
    · exact tryAmtSmash_head e2 _ (digit_ne e2 '.' he2 (by decide))
    · rw [List.suffix_nil.mp h4]
      exact tryAmtSmash_nil

theorem amtSmash_t2_suffix_none (A C : List Char) (b1 b2 d1 d2 d3 e1 e2 : Char)
    (hA : ∀ c ∈ A, isDigitC c = true) (hC : ∀ c ∈ C, isDigitC c = true)
    (hb1 : isDigitC b1 = true) (hb2 : isDigitC b2 = true)
    (hd1 : isDigitC d1 = true) (hd2 : isDigitC d2 = true) (hd3 : isDigitC d3 = true)
    (he1 : isDigitC e1 = true) (he2 : isDigitC e2 = true) :
    ∀ t, t <:+ A ++ '.' :: b1 :: b2 :: '\n' ::
        (C ++ ',' :: d1 :: d2 :: d3 :: '.' :: e1 :: e2 :: []) →
      tryAmtSmash t = none := by
  intro t ht
  rcases suffix_amount_head A (C ++ ',' :: d1 :: d2 :: d3 :: '.' :: e1 :: e2 :: []) b1 b2 t ht
    with ⟨A', hsuf, hne, rfl⟩ | rfl | rfl | rfl | rfl | h
  · cases A' with
    | nil => exact absurd rfl hne
    | cons a0 A0 =>
      exact tryAmtSmash_head a0 _
        (digit_ne a0 '.' (hA a0 (hsuf.subset (List.mem_cons_self a0 A0))) (by decide))
  · apply tryAmtSmash_run
    have kn2 : isDC '\n' = false := by decide
    simp [List.takeWhile_cons, kn2]
  · exact tryAmtSmash_head b1 _ (digit_ne b1 '.' hb1 (by decide))
  · exact tryAmtSmash_head b2 _ (digit_ne b2 '.' hb2 (by decide))
  · exact tryAmtSmash_head '\n' _ (by decide)
  · exact amtSmash_tail_suffix_none C d1 d2 d3 e1 e2 hC hd1 hd2 hd3 he1 he2 t h

theorem userAmt_tail_suffix_none (C : List Char) (d1 d2 d3 e1 e2 : Char)
    (hC : ∀ c ∈ C, isDigitC c = true) (hClen : C.length ≤ 5)
    (hd1 : isDigitC d1 = true) (hd2 : isDigitC d2 = true) (hd3 : isDigitC d3 = true)
    (he1 : isDigitC e1 = true) (he2 : isDigitC e2 = true) :
    ∀ t, t <:+ C ++ ',' :: d1 :: d2 :: d3 :: '.' :: e1 :: e2 :: [] →
      tryUserAmt t = none := by
  have kc : isDigitC ',' = false := by decide
  have kd : isDigitC '.' = false := by decide
  intro t ht
  rcases suffix_amount_tail C ('.' :: e1 :: e2 :: []) d1 d2 d3 t ht with
    ⟨C', hsuf, hne, rfl⟩ | rfl | rfl | rfl | rfl | h
  · apply tryUserAmt_none_short
    have hdig : ∀ c ∈ C', isDigitC c = true := fun c hc => hC c (hsuf.subset hc)
    rw [takeWhile_append_all isDigitC C' _ hdig]
    simp only [List.takeWhile_cons, kc]
    simp only [Bool.false_eq_true, if_false, List.append_nil]
    have := hsuf.length_le
    omega
  · apply tryUserAmt_none_short
    simp [List.takeWhile_cons, kc]
  · apply tryUserAmt_none_short
    simp [List.takeWhile_cons, hd1, hd2, hd3, kd]
  · apply tryUserAmt_none_short
    simp [List.takeWhile_cons, hd2, hd3, kd]
  · apply tryUserAmt_none_short
    simp [List.takeWhile_cons, hd3, kd]
  · rcases suffix_dot_tail [] e1 e2 t h with rfl | rfl | rfl | h4
    · apply tryUserAmt_none_short
      simp [List.takeWhile_cons, kd]
    · apply tryUserAmt_none_short
      simp [List.takeWhile_cons, he1, he2]
    · apply tryUserAmt_none_short
      simp [List.takeWhile_cons, he2]
    · rw [List.suffix_nil.mp h4]
      apply tryUserAmt_none_short
      simp

theorem userAmt_t2_suffix_none (A C : List Char) (b1 b2 d1 d2 d3 e1 e2 : Char)
    (hA : ∀ c ∈ A, isDigitC c = true) (hAlen : A.length ≤ 6)
    (hC : ∀ c ∈ C, isDigitC c = true) (hClen : C.length ≤ 5)
    (hb1 : isDigitC b1 = true) (hb2 : isDigitC b2 = true)
    (hd1 : isDigitC d1 = true) (hd2 : isDigitC d2 = true) (hd3 : isDigitC d3 = true)
    (he1 : isDigitC e1 = true) (he2 : isDigitC e2 = true) :
    ∀ t, t <:+ A ++ '.' :: b1 :: b2 :: '\n' ::
        (C ++ ',' :: d1 :: d2 :: d3 :: '.' :: e1 :: e2 :: []) →
      tryUserAmt t = none := by
  have kd : isDigitC '.' = false := by decide
  have kn : isDigitC '\n' = false := by decide
  intro t ht
  rcases suffix_amount_head A (C ++ ',' :: d1 :: d2 :: d3 :: '.' :: e1 :: e2 :: []) b1 b2 t ht
    with ⟨A', hsuf, hne, rfl⟩ | rfl | rfl | rfl | rfl | h
  · have hdig : ∀ c ∈ A', isDigitC c = true := fun c hc => hA c (hsuf.subset hc)
    have htw : (A' ++ '.' :: b1 :: b2 :: '\n' ::
        (C ++ ',' :: d1 :: d2 :: d3 :: '.' :: e1 :: e2 :: [])).takeWhile isDigitC = A' := by
      rw [takeWhile_append_all isDigitC A' _ hdig]
      simp only [List.takeWhile_cons, kd]
      simp only [Bool.false_eq_true, if_false, List.append_nil]
    have hlenA : A'.length ≤ 6 := le_trans hsuf.length_le hAlen
    by_cases hl : A'.length < 6
    · apply tryUserAmt_none_short
      rw [htw]
      exact hl
    · apply tryUserAmt_none_six
      · rw [htw]
        omega
      · have hdw : (A' ++ '.' :: b1 :: b2 :: '\n' ::
            (C ++ ',' :: d1 :: d2 :: d3 :: '.' :: e1 :: e2 :: [])).dropWhile isDigitC =
            '.' :: b1 :: b2 :: '\n' ::
              (C ++ ',' :: d1 :: d2 :: d3 :: '.' :: e1 :: e2 :: []) := by
          rw [dropWhile_append_all isDigitC A' _ hdig]
          simp [List.dropWhile_cons, kd]
        rw [hdw]
        have kd2 : isDC '.' = false := by decide
        simp [List.takeWhile_cons, kd2]
  · apply tryUserAmt_none_short
    simp [List.takeWhile_cons, kd]
  · apply tryUserAmt_none_short
    simp [List.takeWhile_cons, hb1, hb2, kn]
  · apply tryUserAmt_none_short
    simp [List.takeWhile_cons, hb2, kn]
  · apply tryUserAmt_none_short
    simp [List.takeWhile_cons, kn]
  · exact userAmt_tail_suffix_none C d1 d2 d3 e1 e2 hC hClen hd1 hd2 hd3 he1 he2 t h

theorem wsUser_t2_suffix_none (A C : List Char) (b1 b2 d1 d2 d3 e1 e2 : Char)
    (hA : ∀ c ∈ A, isDigitC c = true)
    (hC : ∀ c ∈ C, isDigitC c = true) (hCne : C ≠ []) (hClen : C.length ≤ 5)
    (hb1 : isDigitC b1 = true) (hb2 : isDigitC b2 = true)
    (hd1 : isDigitC d1 = true) (hd2 : isDigitC d2 = true) (hd3 : isDigitC d3 = true)
    (he1 : isDigitC e1 = true) (he2 : isDigitC e2 = true) :
    ∀ t, t <:+ A ++ '.' :: b1 :: b2 :: '\n' ::
        (C ++ ',' :: d1 :: d2 :: d3 :: '.' :: e1 :: e2 :: []) →
      tryWsUser t = none := by
  intro t ht
  rcases suffix_amount_head A (C ++ ',' :: d1 :: d2 :: d3 :: '.' :: e1 :: e2 :: []) b1 b2 t ht
    with ⟨A', hsuf, hne, rfl⟩ | rfl | rfl | rfl | rfl | h
  · cases A' with
    | nil => exact absurd rfl hne
    | cons a0 A0 =>
      exact tryWsUser_head a0 _
        (digit_not_ws a0 (hA a0 (hsuf.subset (List.mem_cons_self a0 A0))))
  · exact tryWsUser_head '.' _ (by decide)
  · exact tryWsUser_head b1 _ (digit_not_ws b1 hb1)
  · exact tryWsUser_head b2 _ (digit_not_ws b2 hb2)
  · cases C with
    | nil => exact absurd rfl hCne
    | cons c0 C0 =>
      have hdigC : ∀ c ∈ c0 :: C0, isDigitC c = true := hC
      have kw : isWsC '\n' = true := by decide
      have kc : isDigitC ',' = false := by decide
      have hws : List.takeWhile isWsC
          ('\n' :: ((c0 :: C0) ++ ',' :: d1 :: d2 :: d3 :: '.' :: e1 :: e2 :: [])) = ['\n'] := by
        simp [List.takeWhile_cons, kw, digit_not_ws c0 (hdigC c0 (List.mem_cons_self c0 C0))]
      have hdr : List.dropWhile isWsC
          ('\n' :: ((c0 :: C0) ++ ',' :: d1 :: d2 :: d3 :: '.' :: e1 :: e2 :: [])) =
          (c0 :: C0) ++ ',' :: d1 :: d2 :: d3 :: '.' :: e1 :: e2 :: [] := by
        simp [List.dropWhile_cons, kw, digit_not_ws c0 (hdigC c0 (List.mem_cons_self c0 C0))]
      have hrun : List.takeWhile isDigitC
          ((c0 :: C0) ++ ',' :: d1 :: d2 :: d3 :: '.' :: e1 :: e2 :: []) = c0 :: C0 := by
        rw [takeWhile_append_all isDigitC (c0 :: C0) _ hdigC]
        simp [List.takeWhile_cons, kc]
      simp only [tryWsUser, hws, hdr, hrun]
      rw [if_neg (by simp)]
      apply tryWsUserK_none_short
      have : (c0 :: C0).length = C0.length + 1 := by simp
      simp only [List.length_cons] at hClen ⊢
      omega
  · rcases suffix_amount_tail C ('.' :: e1 :: e2 :: []) d1 d2 d3 t h with
      ⟨C', hsuf, hne, rfl⟩ | rfl | rfl | rfl | rfl | h2
    · cases C' with
      | nil => exact absurd rfl hne
      | cons c0 C0 =>
        exact tryWsUser_head c0 _
          (digit_not_ws c0 (hC c0 (hsuf.subset (List.mem_cons_self c0 C0))))
    · exact tryWsUser_head ',' _ (by decide)
    · exact tryWsUser_head d1 _ (digit_not_ws d1 hd1)
    · exact tryWsUser_head d2 _ (digit_not_ws d2 hd2)
    · exact tryWsUser_head d3 _ (digit_not_ws d3 hd3)
    · rcases suffix_dot_tail [] e1 e2 t h2 with rfl | rfl | rfl | h4
      · exact tryWsUser_head '.' _ (by decide)
      · exact tryWsUser_head e1 _ (digit_not_ws e1 he1)
      · exact tryWsUser_head e2 _ (digit_not_ws e2 he2)
      · rw [List.suffix_nil.mp h4]
        exact tryWsUser_nil

theorem pyStr_cons_ne_empty (c : Char) (l : List Char) : pyStr (c :: l) ≠ "" :=
  fun h => List.noConfusion (congrArg String.data h)

theorem amtSpace_match (A C : List Char) (b1 b2 d1 d2 d3 e1 e2 : Char)
    (hA : ∀ c ∈ A, isDigitC c = true) (hAne : A ≠ [])
    (hC : ∀ c ∈ C, isDigitC c = true) (hCne : C ≠ [])
    (hb1 : isDigitC b1 = true) (hb2 : isDigitC b2 = true)
    (hd1 : isDigitC d1 = true) (hd2 : isDigitC d2 = true) (hd3 : isDigitC d3 = true)
    (he1 : isDigitC e1 = true) (he2 : isDigitC e2 = true) :
    tryAmtSpace (A ++ '.' :: b1 :: b2 :: '\n' ::
        (C ++ ',' :: d1 :: d2 :: d3 :: '.' :: e1 :: e2 :: [])) =
      some (A ++ '.' :: b1 :: b2 :: '\n' ::
        ((C ++ ',' :: d1 :: d2 :: d3 :: []) ++ '.' :: e1 :: e2 :: []), []) := by
  cases C with
  | nil => exact absurd rfl hCne
  | cons c0 C0 =>
    have k1 : isDC ',' = true := by decide
    have k2 : isDC '.' = false := by decide
    have kw : isWsC '\n' = true := by decide
    have hADC : ∀ c ∈ A, isDC c = true := fun c hc => digit_isDC c (hA c hc)
    have hCd : ∀ c ∈ c0 :: C0, isDigitC c = true := hC
    have hCDC : ∀ c ∈ c0 :: C0, isDC c = true := fun c hc => digit_isDC c (hCd c hc)
    have hrun1 : List.takeWhile isDC (A ++ '.' :: b1 :: b2 :: '\n' ::
        ((c0 :: C0) ++ ',' :: d1 :: d2 :: d3 :: '.' :: e1 :: e2 :: [])) = A := by
      rw [takeWhile_append_all isDC A _ hADC]
      simp [List.takeWhile_cons, k2]
    have hdrop1 : List.dropWhile isDC (A ++ '.' :: b1 :: b2 :: '\n' ::
        ((c0 :: C0) ++ ',' :: d1 :: d2 :: d3 :: '.' :: e1 :: e2 :: [])) =
        '.' :: b1 :: b2 :: '\n' ::
          ((c0 :: C0) ++ ',' :: d1 :: d2 :: d3 :: '.' :: e1 :: e2 :: []) := by
      rw [dropWhile_append_all isDC A _ hADC]
      simp [List.dropWhile_cons, k2]
    have hws : List.takeWhile isWsC ('\n' ::
        ((c0 :: C0) ++ ',' :: d1 :: d2 :: d3 :: '.' :: e1 :: e2 :: [])) = ['\n'] := by
      simp [List.takeWhile_cons, kw, digit_not_ws c0 (hCd c0 (List.mem_cons_self c0 C0))]
    have hdr : List.dropWhile isWsC ('\n' ::
        ((c0 :: C0) ++ ',' :: d1 :: d2 :: d3 :: '.' :: e1 :: e2 :: [])) =
        (c0 :: C0) ++ ',' :: d1 :: d2 :: d3 :: '.' :: e1 :: e2 :: [] := by
      simp [List.dropWhile_cons, kw, digit_not_ws c0 (hCd c0 (List.mem_cons_self c0 C0))]
    have hrun2 : List.takeWhile isDC
        ((c0 :: C0) ++ ',' :: d1 :: d2 :: d3 :: '.' :: e1 :: e2 :: []) =
        (c0 :: C0) ++ ',' :: d1 :: d2 :: d3 :: [] := by
      rw [takeWhile_append_all isDC (c0 :: C0) _ hCDC]
      simp [List.takeWhile_cons, k1, k2, digit_isDC d1 hd1, digit_isDC d2 hd2, digit_isDC d3 hd3]
    have hdrop2 : List.dropWhile isDC
        ((c0 :: C0) ++ ',' :: d1 :: d2 :: d3 :: '.' :: e1 :: e2 :: []) =
        '.' :: e1 :: e2 :: [] := by
      rw [dropWhile_append_all isDC (c0 :: C0) _ hCDC]
      simp [List.dropWhile_cons, k1, k2, digit_isDC d1 hd1, digit_isDC d2 hd2, digit_isDC d3 hd3]
    simp only [tryAmtSpace, hrun1, hdrop1, hb1, hb2, hws, hdr, hrun2, hdrop2, he1, he2]
    rw [if_neg hAne]
    rw [if_neg (by simp : ¬(['\n'] : List Char) = [])]
    rw [if_neg (by simp : ¬((c0 :: C0) ++ ',' :: d1 :: d2 :: d3 :: [] : List Char) = [])]
    simp

theorem preprocess_amount_merge (A C : List Char) (b1 b2 d1 d2 d3 e1 e2 : Char)
    (hAne : A ≠ []) (hAlen : A.length ≤ 6) (hA : ∀ c ∈ A, isDigitC c = true)
    (hCne : C ≠ []) (hClen : C.length ≤ 5) (hC : ∀ c ∈ C, isDigitC c = true)
    (hb1 : isDigitC b1 = true) (hb2 : isDigitC b2 = true)
    (hd1 : isDigitC d1 = true) (hd2 : isDigitC d2 = true) (hd3 : isDigitC d3 = true)
    (he1 : isDigitC e1 = true) (he2 : isDigitC e2 = true) :
    preprocess_text (pyStr (A ++ '.' :: b1 :: b2 ::
        (C ++ ',' :: d1 :: d2 :: d3 :: '.' :: e1 :: e2 :: []))) =
      pyStr (A ++ '.' :: b1 :: b2 :: '\n' ::
        (C ++ ',' :: d1 :: d2 :: d3 :: '.' :: e1 :: e2 :: [])) := by
  have hmem := mem_numtok_amount2 A C b1 b2 d1 d2 d3 e1 e2 hA hC hb1 hb2 hd1 hd2 hd3 he1 he2
  have hmem2 := mem_classNT_t2 A C b1 b2 d1 d2 d3 e1 e2 hA hC hb1 hb2 hd1 hd2 hd3 he1 he2
  have hdt : subst tryDateTime (A ++ '.' :: b1 :: b2 ::
      (C ++ ',' :: d1 :: d2 :: d3 :: '.' :: e1 :: e2 :: [])) =
      A ++ '.' :: b1 :: b2 :: (C ++ ',' :: d1 :: d2 :: d3 :: '.' :: e1 :: e2 :: []) := by
    apply subst_id_of_suffix
    intro t ht
    apply tryDateTime_none
    intro hm
    exact absurd (hmem ':' (ht.subset hm)) (by decide)
  have hsm1 : subst tryAmtSmash (A ++ '.' :: b1 :: b2 ::
      (C ++ ',' :: d1 :: d2 :: d3 :: '.' :: e1 :: e2 :: [])) =
      A ++ '.' :: b1 :: b2 :: '\n' :: (C ++ ',' :: d1 :: d2 :: d3 :: '.' :: e1 :: e2 :: []) := by
    rw [subst_walk_append tryAmtSmash A
      ('.' :: b1 :: b2 :: (C ++ ',' :: d1 :: d2 :: d3 :: '.' :: e1 :: e2 :: []))
      (by
        intro t htne hts
        cases t with
        | nil => exact absurd rfl htne
        | cons a0 A0 =>
          exact tryAmtSmash_head a0 _
            (digit_ne a0 '.' (hA a0 (hts.subset (List.mem_cons_self a0 A0))) (by decide)))]
    rw [subst_match_then_id tryAmtSmash _ _ _
      (amtSmash_match C [] b1 b2 d1 d2 d3 e1 e2 hC hCne hb1 hb2 hd1 hd2 hd3 he1 he2)
      (fun t ht => by rw [List.suffix_nil.mp ht]; exact tryAmtSmash_nil)]
    simp [List.append_assoc]
  have hsm2 : subst tryAmtSmash (A ++ '.' :: b1 :: b2 :: '\n' ::
      (C ++ ',' :: d1 :: d2 :: d3 :: '.' :: e1 :: e2 :: [])) =
      A ++ '.' :: b1 :: b2 :: '\n' :: (C ++ ',' :: d1 :: d2 :: d3 :: '.' :: e1 :: e2 :: []) :=
    subst_id_of_suffix _ _
      (amtSmash_t2_suffix_none A C b1 b2 d1 d2 d3 e1 e2 hA hC hb1 hb2 hd1 hd2 hd3 he1 he2)
  have hsp : subst tryAmtSpace (A ++ '.' :: b1 :: b2 :: '\n' ::
      (C ++ ',' :: d1 :: d2 :: d3 :: '.' :: e1 :: e2 :: [])) =
      A ++ '.' :: b1 :: b2 :: '\n' :: (C ++ ',' :: d1 :: d2 :: d3 :: '.' :: e1 :: e2 :: []) := by
    rw [subst_match_then_id tryAmtSpace _ _ _
      (amtSpace_match A C b1 b2 d1 d2 d3 e1 e2 hA hAne hC hCne hb1 hb2 hd1 hd2 hd3 he1 he2)
      (fun t ht => by rw [List.suffix_nil.mp ht]; rfl)]
    simp [List.append_assoc]
  have hua : subst tryUserAmt (A ++ '.' :: b1 :: b2 :: '\n' ::
      (C ++ ',' :: d1 :: d2 :: d3 :: '.' :: e1 :: e2 :: [])) =
      A ++ '.' :: b1 :: b2 :: '\n' :: (C ++ ',' :: d1 :: d2 :: d3 :: '.' :: e1 :: e2 :: []) :=
    subst_id_of_suffix _ _
      (userAmt_t2_suffix_none A C b1 b2 d1 d2 d3 e1 e2 hA hAlen hC hClen
        hb1 hb2 hd1 hd2 hd3 he1 he2)
  have hdu : subst tryDescUser (A ++ '.' :: b1 :: b2 :: '\n' ::
      (C ++ ',' :: d1 :: d2 :: d3 :: '.' :: e1 :: e2 :: [])) =
      A ++ '.' :: b1 :: b2 :: '\n' :: (C ++ ',' :: d1 :: d2 :: d3 :: '.' :: e1 :: e2 :: []) :=
    subst_id_head_class _ _ _ hmem2 tryDescUser_nil
      (fun c cs hP => tryDescUser_head c cs (classNT_not_alpha c hP))
  have hwu : subst tryWsUser (A ++ '.' :: b1 :: b2 :: '\n' ::
      (C ++ ',' :: d1 :: d2 :: d3 :: '.' :: e1 :: e2 :: [])) =
      A ++ '.' :: b1 :: b2 :: '\n' :: (C ++ ',' :: d1 :: d2 :: d3 :: '.' :: e1 :: e2 :: []) :=
    subst_id_of_suffix _ _
      (wsUser_t2_suffix_none A C b1 b2 d1 d2 d3 e1 e2 hA hC hCne hClen
        hb1 hb2 hd1 hd2 hd3 he1 he2)
  have hda : subst tryDescAmt (A ++ '.' :: b1 :: b2 :: '\n' ::
      (C ++ ',' :: d1 :: d2 :: d3 :: '.' :: e1 :: e2 :: [])) =
      A ++ '.' :: b1 :: b2 :: '\n' :: (C ++ ',' :: d1 :: d2 :: d3 :: '.' :: e1 :: e2 :: []) :=
    subst_id_head_class _ _ _ hmem2 tryDescAmt_nil
      (fun c cs hP => tryDescAmt_head c cs (classNT_not_alpha c hP))
  have hdas : subst tryDescAmtSpace (A ++ '.' :: b1 :: b2 :: '\n' ::
      (C ++ ',' :: d1 :: d2 :: d3 :: '.' :: e1 :: e2 :: [])) =
      A ++ '.' :: b1 :: b2 :: '\n' :: (C ++ ',' :: d1 :: d2 :: d3 :: '.' :: e1 :: e2 :: []) :=
    subst_id_head_class _ _ _ hmem2 tryDescAmtSpace_nil
      (fun c cs hP => tryDescAmtSpace_head c cs (classNT_not_alpha c hP))
  have hrk : subst tryRekening (A ++ '.' :: b1 :: b2 :: '\n' ::
      (C ++ ',' :: d1 :: d2 :: d3 :: '.' :: e1 :: e2 :: [])) =
      A ++ '.' :: b1 :: b2 :: '\n' :: (C ++ ',' :: d1 :: d2 :: d3 :: '.' :: e1 :: e2 :: []) :=
    subst_id_head_class _ _ _ hmem2 tryRekening_nil
      (fun c cs hP => tryRekening_head c cs (classNT_toLower_n c hP))
  have hnp : subst tryNamaProduk (A ++ '.' :: b1 :: b2 :: '\n' ::
      (C ++ ',' :: d1 :: d2 :: d3 :: '.' :: e1 :: e2 :: [])) =
      A ++ '.' :: b1 :: b2 :: '\n' :: (C ++ ',' :: d1 :: d2 :: d3 :: '.' :: e1 :: e2 :: []) :=
    subst_id_head_class _ _ _ hmem2 tryNamaProduk_nil
      (fun c cs hP => tryNamaProduk_head c cs (classNT_toLower_n c hP))
  have hva : subst tryValuta (A ++ '.' :: b1 :: b2 :: '\n' ::
      (C ++ ',' :: d1 :: d2 :: d3 :: '.' :: e1 :: e2 :: [])) =
      A ++ '.' :: b1 :: b2 :: '\n' :: (C ++ ',' :: d1 :: d2 :: d3 :: '.' :: e1 :: e2 :: []) :=
    subst_id_head_class _ _ _ hmem2 tryValuta_nil
      (fun c cs hP => tryValuta_head c cs (classNT_toLower_v c hP))
  have hne : pyStr (A ++ '.' :: b1 :: b2 ::
      (C ++ ',' :: d1 :: d2 :: d3 :: '.' :: e1 :: e2 :: [])) ≠ "" := by
    cases A with
    | nil => exact absurd rfl hAne
    | cons a0 A0 => exact pyStr_cons_ne_empty a0 _
  simp only [preprocess_text]
  rw [if_neg hne]
  have hdata : (pyStr (A ++ '.' :: b1 :: b2 ::
      (C ++ ',' :: d1 :: d2 :: d3 :: '.' :: e1 :: e2 :: []))).data =
      A ++ '.' :: b1 :: b2 :: (C ++ ',' :: d1 :: d2 :: d3 :: '.' :: e1 :: e2 :: []) := rfl
  rw [hdata, hdt, hsm1, hsm2, hsp, hsp, hua, hdu, hwu, hda, hdas, hrk, hnp, hva]

theorem amtSmash_twice_chain (A C C2 : List Char)
    (b1 b2 d1 d2 d3 e1 e2 d4 d5 d6 f1 f2 : Char)
    (hA : ∀ c ∈ A, isDigitC c = true)
    (hCne : C ≠ []) (hC : ∀ c ∈ C, isDigitC c = true)
    (hC2ne : C2 ≠ []) (hC2 : ∀ c ∈ C2, isDigitC c = true)
    (hb1 : isDigitC b1 = true) (hb2 : isDigitC b2 = true)
    (hd1 : isDigitC d1 = true) (hd2 : isDigitC d2 = true) (hd3 : isDigitC d3 = true)
    (he1 : isDigitC e1 = true) (he2 : isDigitC e2 = true)
    (hd4 : isDigitC d4 = true) (hd5 : isDigitC d5 = true) (hd6 : isDigitC d6 = true)
    (hf1 : isDigitC f1 = true) (hf2 : isDigitC f2 = true) :
    subst tryAmtSmash (subst tryAmtSmash (A ++ '.' :: b1 :: b2 ::
        (C ++ ',' :: d1 :: d2 :: d3 :: '.' :: e1 :: e2 ::
          (C2 ++ ',' :: d4 :: d5 :: d6 :: '.' :: f1 :: f2 :: [])))) =
      A ++ '.' :: b1 :: b2 :: '\n' ::
        (C ++ ',' :: d1 :: d2 :: d3 :: '.' :: e1 :: e2 :: '\n' ::
          (C2 ++ ',' :: d4 :: d5 :: d6 :: '.' :: f1 :: f2 :: [])) := by
  have kn2 : isDC '\n' = false := by decide
  rw [subst_walk_append tryAmtSmash A
    ('.' :: b1 :: b2 :: (C ++ ',' :: d1 :: d2 :: d3 :: '.' :: e1 :: e2 ::
      (C2 ++ ',' :: d4 :: d5 :: d6 :: '.' :: f1 :: f2 :: [])))
    (by
      intro t htne hts
      cases t with
      | nil => exact absurd rfl htne
      | cons a0 A0 =>
        exact tryAmtSmash_head a0 _
          (digit_ne a0 '.' (hA a0 (hts.subset (List.mem_cons_self a0 A0))) (by decide)))]
  rw [subst_match_then_id tryAmtSmash _ _ _
    (amtSmash_match C (C2 ++ ',' :: d4 :: d5 :: d6 :: '.' :: f1 :: f2 :: [])
      b1 b2 d1 d2 d3 e1 e2 hC hCne hb1 hb2 hd1 hd2 hd3 he1 he2)
    (amtSmash_tail_suffix_none C2 d4 d5 d6 f1 f2 hC2 hd4 hd5 hd6 hf1 hf2)]
  have hre : A ++ (('.' :: b1 :: b2 :: '\n' ::
      ((C ++ ',' :: d1 :: d2 :: d3 :: []) ++ '.' :: e1 :: e2 :: [])) ++
        (C2 ++ ',' :: d4 :: d5 :: d6 :: '.' :: f1 :: f2 :: [])) =
      (A ++ '.' :: b1 :: b2 :: '\n' :: (C ++ ',' :: d1 :: d2 :: d3 :: [])) ++
        ('.' :: e1 :: e2 :: (C2 ++ ',' :: d4 :: d5 :: d6 :: '.' :: f1 :: f2 :: [])) := by
    simp [List.append_assoc]
  rw [hre]
  rw [subst_walk_append tryAmtSmash
    (A ++ '.' :: b1 :: b2 :: '\n' :: (C ++ ',' :: d1 :: d2 :: d3 :: []))
    ('.' :: e1 :: e2 :: (C2 ++ ',' :: d4 :: d5 :: d6 :: '.' :: f1 :: f2 :: []))
    (by
      intro t htne hts
      rcases suffix_amount_head A (C ++ ',' :: d1 :: d2 :: d3 :: []) b1 b2 t hts
        with ⟨A', hsuf, hne, rfl⟩ | rfl | rfl | rfl | rfl | h
      · cases A' with
        | nil => exact absurd rfl hne
        | cons a0 A0 =>
          exact tryAmtSmash_head a0 _
            (digit_ne a0 '.' (hA a0 (hsuf.subset (List.mem_cons_self a0 A0))) (by decide))
      · apply tryAmtSmash_run
        simp [List.takeWhile_cons, kn2]
      · exact tryAmtSmash_head b1 _ (digit_ne b1 '.' hb1 (by decide))
      · exact tryAmtSmash_head b2 _ (digit_ne b2 '.' hb2 (by decide))
      · exact tryAmtSmash_head '\n' _ (by decide)
      · rcases suffix_amount_tail C [] d1 d2 d3 t h with
          ⟨C', hsuf, hne, rfl⟩ | rfl | rfl | rfl | rfl | h2
        · cases C' with
          | nil => exact absurd rfl hne
          | cons c0 C0 =>
            exact tryAmtSmash_head c0 _
              (digit_ne c0 '.' (hC c0 (hsuf.subset (List.mem_cons_self c0 C0))) (by decide))
        · exact tryAmtSmash_head ',' _ (by decide)
        · exact tryAmtSmash_head d1 _ (digit_ne d1 '.' hd1 (by decide))
        · exact tryAmtSmash_head d2 _ (digit_ne d2 '.' hd2 (by decide))
        · exact tryAmtSmash_head d3 _ (digit_ne d3 '.' hd3 (by decide))
        · exact absurd (List.suffix_nil.mp h2) htne)]
  rw [subst_match_then_id tryAmtSmash _ _ _
    (amtSmash_match C2 [] e1 e2 d4 d5 d6 f1 f2 hC2 hC2ne he1 he2 hd4 hd5 hd6 hf1 hf2)
    (fun t ht => by rw [List.suffix_nil.mp ht]; exact tryAmtSmash_nil)]
  simp [List.append_assoc]

/-- Claim C4 (amended): for every amount-merge input `"A.BB" + "C,DDD.EE"`
(nonempty digit runs, `|A| ≤ 6` so the 6-8-digit user-amount rule cannot
re-split the first integer part, and `|C| ≤ 5` so it cannot re-split the
second), one application of `preprocess_text` inserts exactly one line break
between the two amounts; and for a chain of three such amounts merged with
no separators, the amount-amount substitution applied twice fully separates
all three onto their own lines.  (With a 7-digit `A` the user-amount rule
splits the first amount instead, see the counterexample.) -/
theorem c4_amended_amount_separation :
    ∀ (A C C2 : List Char) (b1 b2 d1 d2 d3 e1 e2 d4 d5 d6 f1 f2 : Char),
      A ≠ [] → A.length ≤ 6 → (∀ c ∈ A, isDigitC c = true) →
      C ≠ [] → C.length ≤ 5 → (∀ c ∈ C, isDigitC c = true) →
      C2 ≠ [] → (∀ c ∈ C2, isDigitC c = true) →
      isDigitC b1 = true → isDigitC b2 = true →
      isDigitC d1 = true → isDigitC d2 = true → isDigitC d3 = true →
      isDigitC e1 = true → isDigitC e2 = true →
      isDigitC d4 = true → isDigitC d5 = true → isDigitC d6 = true →
      isDigitC f1 = true → isDigitC f2 = true →
      preprocess_text (pyStr (A ++ '.' :: b1 :: b2 ::
          (C ++ ',' :: d1 :: d2 :: d3 :: '.' :: e1 :: e2 :: []))) =
        pyStr (A ++ '.' :: b1 :: b2 :: '\n' ::
          (C ++ ',' :: d1 :: d2 :: d3 :: '.' :: e1 :: e2 :: [])) ∧
      subst tryAmtSmash (subst tryAmtSmash (A ++ '.' :: b1 :: b2 ::
          (C ++ ',' :: d1 :: d2 :: d3 :: '.' :: e1 :: e2 ::
            (C2 ++ ',' :: d4 :: d5 :: d6 :: '.' :: f1 :: f2 :: [])))) =
        A ++ '.' :: b1 :: b2 :: '\n' ::
          (C ++ ',' :: d1 :: d2 :: d3 :: '.' :: e1 :: e2 :: '\n' ::
            (C2 ++ ',' :: d4 :: d5 :: d6 :: '.' :: f1 :: f2 :: [])) := by
  intro A C C2 b1 b2 d1 d2 d3 e1 e2 d4 d5 d6 f1 f2
  intro hAne hAlen hA hCne hClen hC hC2ne hC2
  intro hb1 hb2 hd1 hd2 hd3 he1 he2 hd4 hd5 hd6 hf1 hf2
  exact ⟨preprocess_amount_merge A C b1 b2 d1 d2 d3 e1 e2 hAne hAlen hA hCne hClen hC
      hb1 hb2 hd1 hd2 hd3 he1 he2,
    amtSmash_twice_chain A C C2 b1 b2 d1 d2 d3 e1 e2 d4 d5 d6 f1 f2 hA hCne hC hC2ne hC2
      hb1 hb2 hd1 hd2 hd3 he1 he2 hd4 hd5 hd6 hf1 hf2⟩

/-- Witness for C4 (amended) at `"12.3426,789.01"` and the three-amount
chain `"12.3426,789.015,678.90"`. -/
theorem c4_amended_amount_separation_witness :
    preprocess_text (pyStr (['1', '2'] ++ '.' :: '3' :: '4' ::
        (['2', '6'] ++ ',' :: '7' :: '8' :: '9' :: '.' :: '0' :: '1' :: []))) =
      pyStr (['1', '2'] ++ '.' :: '3' :: '4' :: '\n' ::
        (['2', '6'] ++ ',' :: '7' :: '8' :: '9' :: '.' :: '0' :: '1' :: [])) ∧
    subst tryAmtSmash (subst tryAmtSmash (['1', '2'] ++ '.' :: '3' :: '4' ::
        (['2', '6'] ++ ',' :: '7' :: '8' :: '9' :: '.' :: '0' :: '1' ::
          (['5'] ++ ',' :: '6' :: '7' :: '8' :: '.' :: '9' :: '0' :: [])))) =
      ['1', '2'] ++ '.' :: '3' :: '4' :: '\n' ::
        (['2', '6'] ++ ',' :: '7' :: '8' :: '9' :: '.' :: '0' :: '1' :: '\n' ::
          (['5'] ++ ',' :: '6' :: '7' :: '8' :: '.' :: '9' :: '0' :: [])) :=
  c4_amended_amount_separation ['1', '2'] ['2', '6'] ['5']
    '3' '4' '7' '8' '9' '0' '1' '6' '7' '8' '9' '0'
    (by decide) (by decide) (by decide) (by decide) (by decide) (by decide)
    (by decide) (by decide) (by decide) (by decide) (by decide) (by decide)
    (by decide) (by decide) (by decide) (by decide) (by decide) (by decide)
    (by decide) (by decide)

end PdfParser
